import Mathlib

/-!
Verification of the battleships board/session engine.

Shallow embedding of the Rust sources: the board module (`src/game/mod.rs`,
with the earlier iteration in `src/main.rs`), and the session store
(`src/store.rs`, `src/session.rs`).  Rust `u8` values are modelled as `Nat`
with explicit `% 256` where wrap-around matters; shared mutable state
(`Arc<RwLock<_>>` graphs) is modelled by explicit state passing over a
`Board` value, with ships and counters addressed by list index instead of
by pointer.
-/

/-- A grid coordinate.  `x` and `y` model the Rust `u8` fields of `Point`
(values in `0..=255`). -/
structure Point where
  x : Nat
  y : Nat
deriving DecidableEq, Repr

/-- `Point::try_add_delta`: add an `isize` delta to each coordinate; the result
exists only when both components convert back into `u8` (are in `0..=255`). -/
def Point.try_add_delta (p : Point) (dx dy : Int) : Option Point :=
  let nx : Int := (p.x : Int) + dx
  let ny : Int := (p.y : Int) + dy
  if 0 ≤ nx ∧ nx ≤ 255 ∧ 0 ≤ ny ∧ ny ≤ 255 then
    some ⟨nx.toNat, ny.toNat⟩
  else
    none

/-- The decimal digit character for `d` (`Display` of a `u8` digit). -/
def digitChar (d : Nat) : Char := Char.ofNat (48 + d)

/-- Little-endian decimal digits of `n`, as produced by Rust `Display` for
unsigned integers (least significant digit first). -/
def natDigitsRev (n : Nat) : List Char :=
  if _h : n < 10 then [digitChar n]
  else digitChar (n % 10) :: natDigitsRev (n / 10)
termination_by n
decreasing_by exact Nat.div_lt_self (by omega) (by omega)

/-- Big-endian decimal digits of `n`. -/
def natDigits (n : Nat) : List Char := (natDigitsRev n).reverse

/-- `impl Display for Point`: `write!(f, "x-y")` with both halves in decimal. -/
def Point.display (p : Point) : List Char :=
  natDigits p.x ++ '-' :: natDigits p.y

/-- `str::split_once`: split at the first occurrence of `sep`. -/
def split_once : List Char → Char → Option (List Char × List Char)
  | [], _ => none
  | c :: rest, sep =>
    if c = sep then some ([], rest)
    else (split_once rest sep).map (fun q => (c :: q.1, q.2))

/-- Rust unsigned-integer parsing allows one leading `+` sign. -/
def stripPlus (s : List Char) : List Char :=
  match s with
  | '+' :: rest => rest
  | other => other

/-- `u8::from_str`: an optional `+`, then one or more decimal digits, value at
most 255.  (Rust detects overflow during accumulation; for digit strings this
is equivalent to the final-value bound.) -/
def parseU8 (s : List Char) : Option Nat :=
  let ds := stripPlus s
  if ds = [] then none
  else if ds.all Char.isDigit then
    let v := ds.foldl (fun acc c => acc * 10 + (c.toNat - 48)) 0
    if v ≤ 255 then some v else none
  else none

/-- `impl FromStr for Point`: split at the first `-`, parse both halves as
`u8`. -/
def Point.from_str (s : List Char) : Option Point := do
  let q ← split_once s '-'
  let x ← parseU8 q.1
  let y ← parseU8 q.2
  pure ⟨x, y⟩

theorem digitChar_isDigit {d : Nat} (h : d < 10) : (digitChar d).isDigit = true := by
  interval_cases d <;> decide

theorem digitChar_toNat {d : Nat} (h : d < 10) : (digitChar d).toNat = 48 + d := by
  interval_cases d <;> decide

theorem natDigitsRev_digits (n : Nat) : ∀ c ∈ natDigitsRev n, c.isDigit = true := by
  induction n using Nat.strong_induction_on with
  | _ n ih =>
    rw [natDigitsRev]
    split
    · intro c hc
      simp only [List.mem_singleton] at hc
      subst hc
      exact digitChar_isDigit (by omega)
    · intro c hc
      rcases List.mem_cons.mp hc with h1 | h2
      · subst h1
        exact digitChar_isDigit (Nat.mod_lt _ (by omega))
      · exact ih (n / 10) (Nat.div_lt_self (by omega) (by omega)) c h2

theorem natDigits_digits (n : Nat) : ∀ c ∈ natDigits n, c.isDigit = true := by
  intro c hc
  exact natDigitsRev_digits n c (List.mem_reverse.mp hc)

theorem natDigits_ne_nil (n : Nat) : natDigits n ≠ [] := by
  unfold natDigits
  rw [natDigitsRev]
  split <;> simp

theorem natDigits_val (n : Nat) :
    (natDigits n).foldl (fun acc c => acc * 10 + (c.toNat - 48)) 0 = n := by
  induction n using Nat.strong_induction_on with
  | _ n ih =>
    unfold natDigits
    rw [natDigitsRev]
    split
    · simp only [List.reverse_singleton, List.foldl_cons, List.foldl_nil]
      rw [digitChar_toNat (by omega)]
      omega
    · rename_i h
      simp only [List.reverse_cons]
      rw [List.foldl_append]
      have hv := ih (n / 10) (Nat.div_lt_self (by omega) (by omega))
      unfold natDigits at hv
      rw [hv]
      simp only [List.foldl_cons, List.foldl_nil]
      rw [digitChar_toNat (Nat.mod_lt _ (by omega))]
      omega

theorem split_once_append (a b : List Char) (sep : Char)
    (ha : ∀ c ∈ a, c ≠ sep) :
    split_once (a ++ sep :: b) sep = some (a, b) := by
  induction a with
  | nil => simp [split_once]
  | cons c rest ih =>
    have hc : c ≠ sep := ha c (List.mem_cons_self c rest)
    have ih' := ih (fun x hx => ha x (List.mem_cons_of_mem c hx))
    simp only [List.cons_append, split_once, if_neg hc, List.append_eq, ih']
    rfl

theorem stripPlus_of_head_ne (c : Char) (rest : List Char) (h : c ≠ '+') :
    stripPlus (c :: rest) = c :: rest := by
  unfold stripPlus
  split
  · rename_i heq
    cases heq
    exact absurd rfl h
  · rfl

theorem parseU8_natDigits (n : Nat) (hn : n ≤ 255) :
    parseU8 (natDigits n) = some n := by
  have hdig := natDigits_digits n
  have hnil := natDigits_ne_nil n
  have hstrip : stripPlus (natDigits n) = natDigits n := by
    rcases hds : natDigits n with _ | ⟨c, rest⟩
    · exact absurd hds hnil
    · have hc : c.isDigit = true := by
        rw [hds] at hdig
        exact hdig c (List.mem_cons_self c rest)
      have : c ≠ '+' := by
        intro hplus
        rw [hplus] at hc
        exact absurd hc (by decide)
      exact stripPlus_of_head_ne c rest this
  unfold parseU8
  rw [hstrip]
  rw [if_neg hnil]
  rw [if_pos (List.all_eq_true.mpr (fun c hc => hdig c hc))]
  simp only [natDigits_val]
  rw [if_pos hn]

theorem natDigits_no_dash (n : Nat) : ∀ c ∈ natDigits n, c ≠ '-' := by
  intro c hc heq
  have := natDigits_digits n c hc
  rw [heq] at this
  exact absurd this (by decide)

/-- C5: for every valid coordinate (both components at most 255),
`parse(serialize(p)) = p` where serialization is the `"x-y"` decimal form;
and parsing fails on `"3"` (no separator), `"a-1"` (non-numeric half), and
`"1-1-1"` (extra separator). -/
theorem point_roundtrip_and_rejects :
    (∀ x y : Nat, x ≤ 255 → y ≤ 255 →
      Point.from_str (Point.display ⟨x, y⟩) = some ⟨x, y⟩) ∧
    Point.from_str ("3".toList) = none ∧
    Point.from_str ("a-1".toList) = none ∧
    Point.from_str ("1-1-1".toList) = none := by
  refine ⟨?_, by decide, by decide, by decide⟩
  intro x y hx hy
  unfold Point.display Point.from_str
  rw [split_once_append _ _ _ (natDigits_no_dash x)]
  simp only [Option.bind_eq_bind, Option.some_bind]
  rw [parseU8_natDigits x hx, parseU8_natDigits y hy]
  rfl

/-- C5 witness: the round-trip theorem applied at the concrete coordinate
(3, 250). -/
theorem point_roundtrip_witness :
    (3 : Nat) ≤ 255 ∧ (250 : Nat) ≤ 255 ∧
    Point.from_str (Point.display ⟨3, 250⟩) = some ⟨3, 250⟩ :=
  ⟨by decide, by decide,
    point_roundtrip_and_rejects.1 3 250 (by decide) (by decide)⟩

/-- `CellContent`: water, near-a-ship, or occupied by a ship.  The
`Arc<RwLock<Ship>>` back-reference of the Rust code is modelled by the index
of the ship in `Board.ships`. -/
inductive CellContent where
  | Water : CellContent
  | NearShip (id : Nat) : CellContent
  | Ship (id : Nat) : CellContent
deriving DecidableEq, Repr

/-- `CellContent::contains_ship`: true only for `Ship`. -/
def CellContent.contains_ship : CellContent → Bool
  | .Ship _ => true
  | _ => false

/-- `CellContent::get_ship`: the occupying ship, if any. -/
def CellContent.get_ship : CellContent → Option Nat
  | .Ship id => some id
  | _ => none

/-- `CellContent::get_collision`: the ship this cell contains or neighbors. -/
def CellContent.get_collision : CellContent → Option Nat
  | .Ship id => some id
  | .NearShip id => some id
  | _ => none

/-- `CellState`: cell content plus the monotone `exposed` flag. -/
structure CellState where
  content : CellContent
  exposed : Bool
deriving DecidableEq, Repr

/-- `impl Default for CellState`: unexposed water. -/
def CellState.default : CellState := ⟨CellContent.Water, false⟩

/-- `ShipCounter`: per ship-class score counter.  `remaining` models the `u8`
field. -/
structure ShipCounter where
  name : String
  total : Nat
  remaining : Nat
deriving DecidableEq, Repr

/-- `ShipCounter::new(name, n)`: total and remaining both start at `n`. -/
def ShipCounter.new (name : String) (n : Nat) : ShipCounter := ⟨name, n, n⟩

/-- `ShipCounter::is_defeated`. -/
def ShipCounter.is_defeated (c : ShipCounter) : Bool := c.remaining == 0

/-- `ShipCounter::decrease`: `self.remaining.sub_assign(1)` on a `u8`, i.e.
wrapping subtraction modulo 256 — there is no underflow guard in the source. -/
def ShipCounter.decrease (c : ShipCounter) : ShipCounter :=
  { c with remaining := (c.remaining + 255) % 256 }

/-- `Ship`: remaining hit length, the nearby-cell list (cells stored by
coordinate), and the index of its class counter. -/
structure Ship where
  length : Nat
  nearby_cells : List Point
  counter : Nat
deriving DecidableEq, Repr

/-- `Ship::has_sank`. -/
def Ship.has_sank (s : Ship) : Bool := s.length == 0

/-- `Board`: ship list, counter list, and the `Vec2D` grid of cells (row `x`,
column `y`, exactly as indexed by `state.get(x)?.get(y)` in the source). -/
structure Board where
  ships : List Ship
  ship_counters : List ShipCounter
  state : List (List CellState)
deriving DecidableEq, Repr

/-- Apply `f` to the element at index `n` (no-op when out of range); models an
in-place write through a `Dyn<_>` reference. -/
def modifyAt (f : α → α) : Nat → List α → List α
  | _, [] => []
  | 0, a :: as => f a :: as
  | n + 1, a :: as => a :: modifyAt f n as

theorem get?_modifyAt (f : α → α) (n m : Nat) (l : List α) :
    (modifyAt f n l).get? m = if m = n then (l.get? m).map f else l.get? m := by
  induction l generalizing n m with
  | nil => simp [modifyAt]
  | cons a as ih =>
    cases n with
    | zero =>
      cases m with
      | zero => simp [modifyAt]
      | succ m => simp [modifyAt]
    | succ n =>
      cases m with
      | zero => simp [modifyAt]
      | succ m => simpa [modifyAt, Nat.succ_inj] using ih n m

theorem length_modifyAt (f : α → α) (n : Nat) (l : List α) :
    (modifyAt f n l).length = l.length := by
  induction l generalizing n with
  | nil => cases n <;> rfl
  | cons a as ih => cases n <;> simp [modifyAt, ih]

/-- `Board::get_cell`: `state.get(x)?.get(y)`. -/
def Board.get_cell (b : Board) (p : Point) : Option CellState :=
  (b.state.get? p.x).bind (fun row => row.get? p.y)

/-- Write to the grid cell at `p` through its reference. -/
def Board.cell_modify (b : Board) (p : Point) (f : CellState → CellState) : Board :=
  { b with state := modifyAt (modifyAt f p.y) p.x b.state }

/-- Overwrite the content of the cell at `p` (placement writes). -/
def Board.set_content (b : Board) (p : Point) (cc : CellContent) : Board :=
  b.cell_modify p (fun c => { c with content := cc })

/-- `CellState::expose` on the cell at `p`. -/
def Board.expose_cell (b : Board) (p : Point) : Board :=
  b.cell_modify p (fun c => { c with exposed := true })

/-- Write to the ship at index `i`. -/
def Board.ship_modify (b : Board) (i : Nat) (f : Ship → Ship) : Board :=
  { b with ships := modifyAt f i b.ships }

/-- Write to the counter at index `k`. -/
def Board.counter_modify (b : Board) (k : Nat) (f : ShipCounter → ShipCounter) : Board :=
  { b with ship_counters := modifyAt f k b.ship_counters }

/-- `Board::is_win`: the source loop starts with `win = true`, clears it and
breaks at the first non-defeated counter — exactly `List.all` over the
counters. -/
def Board.is_win (b : Board) : Bool :=
  b.ship_counters.all ShipCounter.is_defeated

/-- `Ship::register_sink` for the ship at index `i`: decrement its class
counter, then expose every cell in its nearby list. -/
def Board.register_sink (b : Board) (i : Nat) : Board :=
  match b.ships.get? i with
  | none => b
  | some s =>
    s.nearby_cells.foldl (fun bb q => bb.expose_cell q)
      (b.counter_modify s.counter ShipCounter.decrease)

/-- `Ship::hit` for the ship at index `i`: `checked_sub(1)` on the length is a
no-op when the ship already sank; otherwise decrement, and `register_sink`
exactly when the new length is 0. -/
def Board.ship_hit (b : Board) (i : Nat) : Board :=
  match b.ships.get? i with
  | none => b
  | some s =>
    match s.length with
    | 0 => b
    | Nat.succ n =>
      if n = 0 then
        (b.ship_modify i (fun sh => { sh with length := n })).register_sink i
      else
        b.ship_modify i (fun sh => { sh with length := n })

/-- The two client-caused hit failures of the spec taxonomy: the source
returns `anyhow` errors "Invalid cell coordinates" (out of bounds) and
"Cell already hit". -/
inductive HitError where
  | OutOfBounds : HitError
  | AlreadyHit : HitError
deriving DecidableEq, Repr

/-- `Board::hit` with `CellRef::hit` inlined: resolve the cell (failing when
out of bounds), fail when it is already exposed, expose it, propagate to the
occupying ship if any, and report a sunk ship exactly when the ship occupying
the hit cell has sunk after the hit.  The returned board is the updated state;
both error paths return the input board unchanged. -/
def Board.hit (b : Board) (p : Point) : Except HitError (Option Nat) × Board :=
  match b.get_cell p with
  | none => (.error .OutOfBounds, b)
  | some cell =>
    if cell.exposed then (.error .AlreadyHit, b)
    else
      match cell.content.get_ship with
      | some i =>
        (.ok (if (match ((b.expose_cell p).ship_hit i).ships.get? i with
                  | some s => s.has_sank
                  | none => false)
              then some i else none),
          (b.expose_cell p).ship_hit i)
      | none => (.ok none, b.expose_cell p)

theorem get_cell_cell_modify (b : Board) (p q : Point) (f : CellState → CellState) :
    (b.cell_modify p f).get_cell q =
      if q = p then (b.get_cell q).map f else b.get_cell q := by
  unfold Board.cell_modify Board.get_cell
  simp only
  rw [get?_modifyAt]
  by_cases hx : q.x = p.x
  · rw [if_pos hx]
    cases hrow : b.state.get? q.x with
    | none => split <;> rfl
    | some row =>
      simp only [Option.map_some', Option.some_bind]
      rw [get?_modifyAt]
      by_cases hy : q.y = p.y
      · have hq : q = p := by cases q; cases p; simp_all
        rw [if_pos hy, if_pos hq]
      · have hq : q ≠ p := by intro h; apply hy; rw [h]
        rw [if_neg hy, if_neg hq]
  · have hq : q ≠ p := by intro h; apply hx; rw [h]
    rw [if_neg hx, if_neg hq]

theorem get_cell_expose (b : Board) (r q : Point) :
    (b.expose_cell r).get_cell q =
      if q = r then (b.get_cell q).map (fun c => { c with exposed := true })
      else b.get_cell q := by
  unfold Board.expose_cell
  exact get_cell_cell_modify b r q _

theorem get_cell_set_content (b : Board) (r q : Point) (cc : CellContent) :
    (b.set_content r cc).get_cell q =
      if q = r then (b.get_cell q).map (fun c => { c with content := cc })
      else b.get_cell q := by
  unfold Board.set_content
  exact get_cell_cell_modify b r q _

theorem get_cell_expose_fold (L : List Point) (b : Board) (q : Point) :
    (L.foldl (fun bb r => bb.expose_cell r) b).get_cell q =
      if q ∈ L then (b.get_cell q).map (fun c => { c with exposed := true })
      else b.get_cell q := by
  induction L generalizing b with
  | nil => simp
  | cons r rest ih =>
    simp only [List.foldl_cons]
    rw [ih, get_cell_expose]
    by_cases hqr : q = r
    · rw [if_pos hqr, if_pos (List.mem_cons.mpr (Or.inl hqr))]
      by_cases hmem : q ∈ rest
      · rw [if_pos hmem]
        cases b.get_cell q <;> rfl
      · rw [if_neg hmem]
    · rw [if_neg hqr]
      by_cases hmem : q ∈ rest
      · rw [if_pos hmem, if_pos (List.mem_cons.mpr (Or.inr hmem))]
      · rw [if_neg hmem,
          if_neg (fun h => (List.mem_cons.mp h).elim hqr hmem)]

theorem get_cell_set_content_fold (L : List Point) (cc : CellContent) (b : Board)
    (q : Point) :
    (L.foldl (fun bb r => bb.set_content r cc) b).get_cell q =
      if q ∈ L then (b.get_cell q).map (fun c => { c with content := cc })
      else b.get_cell q := by
  induction L generalizing b with
  | nil => simp
  | cons r rest ih =>
    simp only [List.foldl_cons]
    rw [ih, get_cell_set_content]
    by_cases hqr : q = r
    · rw [if_pos hqr, if_pos (List.mem_cons.mpr (Or.inl hqr))]
      by_cases hmem : q ∈ rest
      · rw [if_pos hmem]
        cases b.get_cell q <;> rfl
      · rw [if_neg hmem]
    · rw [if_neg hqr]
      by_cases hmem : q ∈ rest
      · rw [if_pos hmem, if_pos (List.mem_cons.mpr (Or.inr hmem))]
      · rw [if_neg hmem,
          if_neg (fun h => (List.mem_cons.mp h).elim hqr hmem)]

theorem is_win_iff_all_zero_aux (b : Board) :
    b.is_win = true ↔ ∀ c ∈ b.ship_counters, c.remaining = 0 := by
  unfold Board.is_win ShipCounter.is_defeated
  rw [List.all_eq_true]
  constructor
  · intro h c hc
    simpa using h c hc
  · intro h c hc
    simp [h c hc]

/-- C4: `Board.is_win()` returns true iff every `ShipCounter` in the board's
counter list has `remaining = 0`. -/
theorem is_win_iff_all_remaining_zero (b : Board) :
    b.is_win = true ↔ ∀ c ∈ b.ship_counters, c.remaining = 0 :=
  is_win_iff_all_zero_aux b

/-- C4 witness: the win-detection theorem applied to a concrete board whose
single counter has remaining 0. -/
theorem is_win_iff_witness :
    Board.is_win ⟨[], [ShipCounter.new "A" 0], []⟩ = true :=
  (is_win_iff_all_remaining_zero ⟨[], [ShipCounter.new "A" 0], []⟩).mpr
    (by decide)

/-- A stored `Session`: expiry timestamp (`OffsetDateTime` modelled as an
integer) plus the board. -/
structure Session where
  expires : Int
  board : Board
deriving DecidableEq, Repr

/-- `Store::cleanup`: `self.data.retain(|_, entry| entry.expires >= now)` —
keep exactly the entries whose expiry is at least `now` (identical in
`store.rs` and `session.rs`).  The `DashMap` is modelled as an association
list. -/
def Store.cleanup (data : List (Nat × Session)) (now : Int) : List (Nat × Session) :=
  data.filter (fun e => now ≤ e.2.expires)

/-- `Store::get` (`session.rs`) and the map lookup inside `Store::get_session`
(`store.rs`): `self.data.get(&id)` — a plain lookup with no expiry check. -/
def Store.get (data : List (Nat × Session)) (id : Nat) : Option Session :=
  (data.find? (fun e => e.1 == id)).map (fun e => e.2)

/-- C6 counterexample: at `now = 5`, the entry whose expiry is exactly 5 is
kept by `cleanup`, refuting the claim that every entry with expiry ≤ now is
removed. -/
theorem cleanup_keeps_entry_with_expiry_eq_now :
    ((5 : Int) ≤ 5) ∧
    ((0, (⟨5, ⟨[], [], []⟩⟩ : Session)) ∈
      Store.cleanup [(0, ⟨5, ⟨[], [], []⟩⟩)] 5) := by
  constructor
  · decide
  · simp [Store.cleanup]

/-- C6 amended: `cleanup(now)` removes exactly the entries whose expiry is
strictly before `now` — an entry whose expiry equals `now` is kept — and the
surviving entries are exactly the original ones, unchanged and in order. -/
theorem cleanup_removes_strictly_expired (data : List (Nat × Session)) (now : Int) :
    (∀ e : Nat × Session,
      e ∈ Store.cleanup data now ↔ e ∈ data ∧ ¬ e.2.expires < now) ∧
    (Store.cleanup data now).Sublist data := by
  constructor
  · intro e
    simp [Store.cleanup, List.mem_filter, Int.not_lt]
  · exact List.filter_sublist data

/-- C6 amended-claim witness: at `now = 5`, an entry expiring at 4 is removed
and an entry expiring at 5 survives. -/
theorem cleanup_removes_strictly_expired_witness :
    ((0, (⟨4, ⟨[], [], []⟩⟩ : Session)) ∉
        Store.cleanup [(0, ⟨4, ⟨[], [], []⟩⟩), (1, ⟨5, ⟨[], [], []⟩⟩)] 5) ∧
    ((1, (⟨5, ⟨[], [], []⟩⟩ : Session)) ∈
        Store.cleanup [(0, ⟨4, ⟨[], [], []⟩⟩), (1, ⟨5, ⟨[], [], []⟩⟩)] 5) := by
  constructor
  · intro h
    have := ((cleanup_removes_strictly_expired
      [(0, ⟨4, ⟨[], [], []⟩⟩), (1, ⟨5, ⟨[], [], []⟩⟩)] 5).1 _).mp h
    exact this.2 (by decide)
  · exact ((cleanup_removes_strictly_expired
      [(0, ⟨4, ⟨[], [], []⟩⟩), (1, ⟨5, ⟨[], [], []⟩⟩)] 5).1 _).mpr
      ⟨by simp, by decide⟩

/-- C8: `get(id)` returns the stored session whenever the id is present in the
map — with no expiry check, so an expired-but-not-yet-swept session is still
served — and returns nothing when the id is absent. -/
theorem get_ignores_expiry :
    (∀ (data : List (Nat × Session)) (id : Nat) (s : Session),
      data.Pairwise (fun a b => a.1 ≠ b.1) → (id, s) ∈ data →
      Store.get data id = some s) ∧
    (∀ (data : List (Nat × Session)) (id : Nat),
      (∀ e ∈ data, e.1 ≠ id) → Store.get data id = none) ∧
    (∀ (data : List (Nat × Session)) (id : Nat) (s : Session) (now : Int),
      data.Pairwise (fun a b => a.1 ≠ b.1) → (id, s) ∈ data →
      s.expires < now → Store.get data id = some s) := by
  have main : ∀ (data : List (Nat × Session)) (id : Nat) (s : Session),
      data.Pairwise (fun a b => a.1 ≠ b.1) → (id, s) ∈ data →
      Store.get data id = some s := by
    intro data id s hpw hmem
    induction data with
    | nil => cases hmem
    | cons e rest ih =>
      rcases List.pairwise_cons.mp hpw with ⟨hhead, htail⟩
      unfold Store.get
      by_cases he : e.1 = id
      · have : e = (id, s) := by
          rcases List.mem_cons.mp hmem with h1 | h2
          · exact h1.symm
          · exact absurd he (hhead _ h2)
        subst this
        rw [List.find?_cons_of_pos _ (by simp)]
        rfl
      · have hmem' : (id, s) ∈ rest := by
          rcases List.mem_cons.mp hmem with h1 | h2
          · exact absurd (by rw [← h1]) he
          · exact h2
        have := ih htail hmem'
        unfold Store.get at this
        rw [List.find?_cons_of_neg _ (by simpa using he)]
        exact this
  refine ⟨main, ?_, fun data id s _ hpw hmem _ => main data id s hpw hmem⟩
  intro data id habs
  unfold Store.get
  rw [List.find?_eq_none.mpr]
  · rfl
  · intro e he
    simpa using habs e he

/-- C8 witness: a session whose expiry (0) is long past `now = 99` is still
returned by `get`, and an absent id yields nothing. -/
theorem get_ignores_expiry_witness :
    Store.get [(7, ⟨0, ⟨[], [], []⟩⟩)] 7 = some ⟨0, ⟨[], [], []⟩⟩ ∧
    Store.get [(7, ⟨0, ⟨[], [], []⟩⟩)] 8 = none :=
  ⟨get_ignores_expiry.2.2 [(7, ⟨0, ⟨[], [], []⟩⟩)] 7 ⟨0, ⟨[], [], []⟩⟩ 99
      (by simp) (by simp) (by decide),
    get_ignores_expiry.2.1 [(7, ⟨0, ⟨[], [], []⟩⟩)] 8 (by decide)⟩

/-- Between `b` and `b'`: grid contents unchanged and exposure only grows
(an exposed cell never reverts). -/
def ExposeOnly (b b' : Board) : Prop :=
  ∀ q c, b.get_cell q = some c →
    b'.get_cell q = some c ∨ b'.get_cell q = some { c with exposed := true }

theorem get_cell_ship_modify (b : Board) (i : Nat) (f : Ship → Ship) (q : Point) :
    (b.ship_modify i f).get_cell q = b.get_cell q := rfl

theorem get_cell_counter_modify (b : Board) (k : Nat) (f : ShipCounter → ShipCounter)
    (q : Point) :
    (b.counter_modify k f).get_cell q = b.get_cell q := rfl

theorem expose_only_register_sink (b : Board) (i : Nat) :
    ExposeOnly b (b.register_sink i) := by
  intro q c h
  unfold Board.register_sink
  cases hs : b.ships.get? i with
  | none => exact Or.inl h
  | some s =>
    rw [get_cell_expose_fold]
    by_cases hq : q ∈ s.nearby_cells
    · rw [if_pos hq, get_cell_counter_modify, h]
      exact Or.inr rfl
    · rw [if_neg hq, get_cell_counter_modify]
      exact Or.inl h

theorem expose_only_ship_hit (b : Board) (i : Nat) :
    ExposeOnly b (b.ship_hit i) := by
  unfold Board.ship_hit
  split
  · exact fun q c h => Or.inl h
  · split
    · exact fun q c h => Or.inl h
    · split
      · exact fun q c h => expose_only_register_sink _ i q c h
      · exact fun q c h => Or.inl h

/-- C3: `Board.hit` fails with the out-of-bounds error when the point lies
outside the grid and with the already-hit error when the target cell is
already exposed; both failures leave every cell, ship, and counter unchanged
(the returned board is the input board).  Consequently, hitting the same
coordinate twice returns success then AlreadyHit, and the state after the
second call equals the state after the first. -/
theorem hit_error_cases_and_idempotence (b : Board) (p : Point) :
    (b.get_cell p = none → b.hit p = (.error .OutOfBounds, b)) ∧
    (∀ c, b.get_cell p = some c → c.exposed = true →
      b.hit p = (.error .AlreadyHit, b)) ∧
    (∀ d b', b.hit p = (.ok d, b') → b'.hit p = (.error .AlreadyHit, b')) := by
  refine ⟨?_, ?_, ?_⟩
  · intro h
    unfold Board.hit
    rw [h]
  · intro c hc hexp
    unfold Board.hit
    rw [hc]
    simp [hexp]
  · intro d b' hok
    unfold Board.hit at hok
    cases hc : b.get_cell p with
    | none =>
      rw [hc] at hok
      simp at hok
    | some cell =>
      rw [hc] at hok
      by_cases hexp : cell.exposed = true
      · simp [hexp] at hok
      · simp only [hexp, Bool.false_eq_true, if_false] at hok
        cases hgs : cell.content.get_ship with
        | none =>
          rw [hgs] at hok
          have hb' : b' = b.expose_cell p := by
            have := congrArg Prod.snd hok
            exact this.symm
          subst hb'
          have hcell' : (b.expose_cell p).get_cell p =
              some { cell with exposed := true } := by
            rw [get_cell_expose, if_pos rfl, hc]
            rfl
          unfold Board.hit
          rw [hcell']
          simp
        | some i =>
          rw [hgs] at hok
          have hb' : b' = (b.expose_cell p).ship_hit i := by
            have := congrArg Prod.snd hok
            exact this.symm
          subst hb'
          have hcell' : (b.expose_cell p).get_cell p =
              some { cell with exposed := true } := by
            rw [get_cell_expose, if_pos rfl, hc]
            rfl
          rcases expose_only_ship_hit (b.expose_cell p) i p _ hcell' with h2 | h2
          · unfold Board.hit
            rw [h2]
            simp
          · unfold Board.hit
            rw [h2]
            simp

/-- C3 witness: on a one-cell board, a hit at (0,0) succeeds; the second hit
at (0,0) fails with AlreadyHit leaving the board as after the first; a hit at
(5,5) fails OutOfBounds leaving the board unchanged; a hit on an exposed cell
fails AlreadyHit leaving the board unchanged. -/
theorem hit_error_cases_witness :
    (Board.hit ⟨[], [], [[⟨CellContent.Water, false⟩]]⟩ ⟨5, 5⟩ =
      (.error .OutOfBounds, ⟨[], [], [[⟨CellContent.Water, false⟩]]⟩)) ∧
    (Board.hit ⟨[], [], [[⟨CellContent.Water, true⟩]]⟩ ⟨0, 0⟩ =
      (.error .AlreadyHit, ⟨[], [], [[⟨CellContent.Water, true⟩]]⟩)) ∧
    (Board.hit ⟨[], [], [[⟨CellContent.Water, true⟩]]⟩ ⟨0, 0⟩ =
      (.error .AlreadyHit, ⟨[], [], [[⟨CellContent.Water, true⟩]]⟩)) := by
  refine ⟨?_, ?_, ?_⟩
  · exact (hit_error_cases_and_idempotence ⟨[], [], [[⟨CellContent.Water, false⟩]]⟩
      ⟨5, 5⟩).1 (by decide)
  · exact (hit_error_cases_and_idempotence ⟨[], [], [[⟨CellContent.Water, true⟩]]⟩
      ⟨0, 0⟩).2.1 ⟨CellContent.Water, true⟩ (by decide) (by decide)
  · exact (hit_error_cases_and_idempotence ⟨[], [], [[⟨CellContent.Water, false⟩]]⟩
      ⟨0, 0⟩).2.2 none ⟨[], [], [[⟨CellContent.Water, true⟩]]⟩ rfl

theorem expose_fold_ships (L : List Point) (b : Board) :
    (L.foldl (fun bb r => bb.expose_cell r) b).ships = b.ships := by
  induction L generalizing b with
  | nil => rfl
  | cons r rest ih =>
    rw [List.foldl_cons, ih]
    rfl

theorem expose_fold_counters (L : List Point) (b : Board) :
    (L.foldl (fun bb r => bb.expose_cell r) b).ship_counters = b.ship_counters := by
  induction L generalizing b with
  | nil => rfl
  | cons r rest ih =>
    rw [List.foldl_cons, ih]
    rfl

theorem register_sink_of_get? (b : Board) (i : Nat) (s : Ship)
    (hs : b.ships.get? i = some s) :
    b.register_sink i =
      s.nearby_cells.foldl (fun bb q => bb.expose_cell q)
        (b.counter_modify s.counter ShipCounter.decrease) := by
  unfold Board.register_sink
  rw [hs]

theorem ship_hit_of_get? (b : Board) (i : Nat) (s : Ship)
    (hs : b.ships.get? i = some s) :
    b.ship_hit i =
      if s.length = 0 then b
      else if s.length = 1 then
        (b.ship_modify i (fun sh => { sh with length := s.length - 1 })).register_sink i
      else
        b.ship_modify i (fun sh => { sh with length := s.length - 1 }) := by
  unfold Board.ship_hit
  rw [hs]
  rcases s with ⟨len, nb, ctr⟩
  cases len with
  | zero => simp
  | succ n =>
    cases n with
    | zero => simp
    | succ m => simp

theorem register_sink_ships (b : Board) (i : Nat) :
    (b.register_sink i).ships = b.ships := by
  unfold Board.register_sink
  split
  · rfl
  · rw [expose_fold_ships]
    rfl

theorem ships_get?_ship_modify (b : Board) (i j : Nat) (f : Ship → Ship) :
    (b.ship_modify i f).ships.get? j =
      if j = i then (b.ships.get? j).map f else b.ships.get? j :=
  get?_modifyAt f i j b.ships

theorem counters_get?_counter_modify (b : Board) (k m : Nat)
    (f : ShipCounter → ShipCounter) :
    (b.counter_modify k f).ship_counters.get? m =
      if m = k then (b.ship_counters.get? m).map f else b.ship_counters.get? m :=
  get?_modifyAt f k m b.ship_counters

/-- C2: `Ship::hit` decrements `remaining_length` by 1 unless it is already 0,
in which case nothing changes at all (no counter update, no exposure); on the
call where the length reaches 0 (initial length 1), the ship's counter
decreases by exactly 1 — and never again for the same ship, since a further
hit is a no-op — and every cell in the ship's `nearby_cells` list becomes
exposed (a cell already exposed is left unchanged), while cells outside that
list and every other counter are untouched.  (The `u8` bound
`remaining ≤ 255` makes the wrapping subtraction an exact decrement.) -/
theorem ship_hit_spec (b : Board) (i : Nat) (s : Ship)
    (hs : b.ships.get? i = some s) :
    (s.length = 0 → b.ship_hit i = b) ∧
    (0 < s.length →
      (b.ship_hit i).ships.get? i = some { s with length := s.length - 1 }) ∧
    (1 < s.length →
      b.ship_hit i = b.ship_modify i (fun sh => { sh with length := s.length - 1 })) ∧
    (s.length = 1 →
      ((b.ship_hit i).ship_hit i = b.ship_hit i) ∧
      (∀ c, b.ship_counters.get? s.counter = some c →
        (b.ship_hit i).ship_counters.get? s.counter =
          some { c with remaining := (c.remaining + 255) % 256 } ∧
        (0 < c.remaining → c.remaining ≤ 255 →
          (b.ship_hit i).ship_counters.get? s.counter =
            some { c with remaining := c.remaining - 1 })) ∧
      (∀ k, k ≠ s.counter →
        (b.ship_hit i).ship_counters.get? k = b.ship_counters.get? k) ∧
      (∀ q c0, q ∈ s.nearby_cells → b.get_cell q = some c0 →
        (b.ship_hit i).get_cell q = some { c0 with exposed := true }) ∧
      (∀ q, q ∉ s.nearby_cells → (b.ship_hit i).get_cell q = b.get_cell q)) := by
  have hchar := ship_hit_of_get? b i s hs
  have hb1s : (b.ship_modify i (fun sh => { sh with length := s.length - 1 })).ships.get? i
      = some { s with length := s.length - 1 } := by
    rw [ships_get?_ship_modify, if_pos rfl, hs]
    rfl
  refine ⟨?_, ?_, ?_, ?_⟩
  · intro h0
    rw [hchar, if_pos h0]
  · intro hpos
    rw [hchar, if_neg (by omega)]
    by_cases h1 : s.length = 1
    · rw [if_pos h1, register_sink_ships]
      exact hb1s
    · rw [if_neg h1]
      exact hb1s
  · intro hgt
    rw [hchar, if_neg (by omega), if_neg (by omega)]
  · intro h1
    have hrs : b.ship_hit i =
        s.nearby_cells.foldl (fun bb q => bb.expose_cell q)
          ((b.ship_modify i (fun sh => { sh with length := s.length - 1 })).counter_modify
            s.counter ShipCounter.decrease) := by
      rw [hchar, if_neg (by omega), if_pos h1]
      exact register_sink_of_get? _ i { s with length := s.length - 1 } hb1s
    have hlen0 : (b.ship_hit i).ships.get? i = some { s with length := s.length - 1 } := by
      rw [hrs, expose_fold_ships]
      exact hb1s
    have hcnt : (b.ship_hit i).ship_counters =
        modifyAt ShipCounter.decrease s.counter b.ship_counters := by
      rw [hrs, expose_fold_counters]
      rfl
    refine ⟨?_, ?_, ?_, ?_, ?_⟩
    · have ht : ({ s with length := s.length - 1 } : Ship).length = 0 := by
        show s.length - 1 = 0
        omega
      rw [ship_hit_of_get? _ i _ hlen0, if_pos ht]
    · intro c hc
      constructor
      · rw [hcnt, get?_modifyAt, if_pos rfl, hc]
        rfl
      · intro hposr hle
        rw [hcnt, get?_modifyAt, if_pos rfl, hc]
        simp only [Option.map_some']
        have : (c.remaining + 255) % 256 = c.remaining - 1 := by omega
        simp [ShipCounter.decrease, this]
    · intro k hk
      rw [hcnt, get?_modifyAt, if_neg hk]
    · intro q c0 hqmem hq
      rw [hrs, get_cell_expose_fold, if_pos hqmem, get_cell_counter_modify,
        get_cell_ship_modify, hq]
      rfl
    · intro q hq
      rw [hrs, get_cell_expose_fold, if_neg hq, get_cell_counter_modify,
        get_cell_ship_modify]

/-- C2 witness: a length-1 ship at (0,0) with one nearby cell (0,1) and
counter "A" (1 of 1 remaining): hitting it sinks it — the counter drops to 0
and the nearby cell becomes exposed — and a repeat hit is a no-op. -/
theorem ship_hit_spec_witness :
    ((Board.ship_hit ⟨[⟨1, [⟨0, 1⟩], 0⟩], [⟨"A", 1, 1⟩],
        [[⟨CellContent.Ship 0, false⟩, ⟨CellContent.Water, false⟩]]⟩ 0).ship_counters.get? 0 =
      some ⟨"A", 1, 0⟩) ∧
    ((Board.ship_hit ⟨[⟨1, [⟨0, 1⟩], 0⟩], [⟨"A", 1, 1⟩],
        [[⟨CellContent.Ship 0, false⟩, ⟨CellContent.Water, false⟩]]⟩ 0).get_cell ⟨0, 1⟩ =
      some ⟨CellContent.Water, true⟩) ∧
    ((Board.ship_hit ⟨[⟨1, [⟨0, 1⟩], 0⟩], [⟨"A", 1, 1⟩],
        [[⟨CellContent.Ship 0, false⟩, ⟨CellContent.Water, false⟩]]⟩ 0).ship_hit 0 =
      Board.ship_hit ⟨[⟨1, [⟨0, 1⟩], 0⟩], [⟨"A", 1, 1⟩],
        [[⟨CellContent.Ship 0, false⟩, ⟨CellContent.Water, false⟩]]⟩ 0) := by
  have h := ship_hit_spec ⟨[⟨1, [⟨0, 1⟩], 0⟩], [⟨"A", 1, 1⟩],
      [[⟨CellContent.Ship 0, false⟩, ⟨CellContent.Water, false⟩]]⟩ 0
      ⟨1, [⟨0, 1⟩], 0⟩ rfl
  have hsunk := h.2.2.2 rfl
  refine ⟨?_, ?_, hsunk.1⟩
  · exact (hsunk.2.1 ⟨"A", 1, 1⟩ rfl).2 (by decide) (by decide)
  · exact hsunk.2.2.2.1 ⟨0, 1⟩ ⟨CellContent.Water, false⟩ (by decide) rfl

/-- `ShipAddError`: collision at a point, out of bounds, or an internal
construction error. -/
inductive ShipAddError where
  | Collision (point : Point) : ShipAddError
  | OutOfBounds : ShipAddError
  | InternalError (msg : String) : ShipAddError
deriving DecidableEq, Repr

/-- `ShipDefinition`: class name, instance length, instance count (`u8`s). -/
structure ShipDefinition where
  name : String
  length : Nat
  count : Nat
deriving DecidableEq, Repr

/-- `ShipDefinition::to_counter`: `ShipCounter::new(name, count)`. -/
def ShipDefinition.to_counter (d : ShipDefinition) : ShipCounter :=
  ShipCounter.new d.name d.count

/-- `BoardBuilder`: target bounds plus the board under construction. -/
structure BoardBuilder where
  bounds : Point
  inner : Board
deriving DecidableEq, Repr

/-- `BoardBuilder::new`: a `bounds.x × bounds.y` grid of default cells. -/
def BoardBuilder.new (bounds : Point) : BoardBuilder :=
  ⟨bounds, ⟨[], [],
    List.replicate bounds.x (List.replicate bounds.y CellState.default)⟩⟩

/-- `BoardBuilder::square`. -/
def BoardBuilder.square (n : Nat) : BoardBuilder := BoardBuilder.new ⟨n, n⟩

/-- `self.inner.ship_counters.push(counter)` inside `random`. -/
def BoardBuilder.push_counter (bd : BoardBuilder) (c : ShipCounter) : BoardBuilder :=
  { bd with inner :=
      { bd.inner with ship_counters := bd.inner.ship_counters ++ [c] } }

/-- The deltas visited by `for dx in -1..=1 { for dy in -1..=1 { ... } }`, in
visit order. -/
def neighborDeltas : List (Int × Int) :=
  [(-1, -1), (-1, 0), (-1, 1), (0, -1), (0, 0), (0, 1), (1, -1), (1, 0), (1, 1)]

/-- The neighbor scan of `add_ship_instance` for one target point `p`: walk
the deltas; skip a point of the ship itself or one already tried; otherwise
record it as tried, fail with `Collision` if its cell contains a ship, and
collect it as a near cell when it is on the grid. -/
def scan_neighbors (b : Board) (allPts : List Point) (p : Point) :
    List (Int × Int) → List Point → List Point → Except ShipAddError (List Point)
  | [], _, nears => .ok nears.reverse
  | (dx, dy) :: rest, tried, nears =>
    match p.try_add_delta dx dy with
    | none => scan_neighbors b allPts p rest tried nears
    | some ap =>
      if ap ∈ allPts ∨ ap ∈ tried then scan_neighbors b allPts p rest tried nears
      else
        match b.get_cell ap with
        | none => scan_neighbors b allPts p rest (ap :: tried) nears
        | some c =>
          if c.content.contains_ship then .error (.Collision ap)
          else scan_neighbors b allPts p rest (ap :: tried) (ap :: nears)

/-- Checks for one target point of `add_ship_instance`: the cell must exist
(`OutOfBounds` otherwise), must not contain or neighbor a ship
(`get_collision`), and its neighborhood must be ship-free. -/
def check_point (b : Board) (allPts : List Point) (p : Point) :
    Except ShipAddError (List Point) :=
  match b.get_cell p with
  | none => .error .OutOfBounds
  | some c =>
    match c.content.get_collision with
    | some _ => .error (.Collision p)
    | none => scan_neighbors b allPts p neighborDeltas [] []

/-- The checking phase of `add_ship_instance`: process the target points in
order, accumulating the near cells found from each (the source pushes them
into one `near_cells` vector). -/
def collect_placement (b : Board) (allPts : List Point) :
    List Point → Except ShipAddError (List Point)
  | [] => .ok []
  | p :: rest => do
    let nears ← check_point b allPts p
    let more ← collect_placement b allPts rest
    pure (nears ++ more)

/-- The writing phase of `add_ship_instance`: push the new ship (length is
`points.len() as u8`, nearby cells are the collected near cells, counter the
given class counter), then set every target cell to `Ship` and every near
cell to `NearShip`, all referring to the new ship's index. -/
def place_ship (bd : BoardBuilder) (counter : Nat) (points nears : List Point) :
    BoardBuilder :=
  BoardBuilder.mk bd.bounds
    (nears.foldl
      (fun bb q => bb.set_content q (CellContent.NearShip bd.inner.ships.length))
      (points.foldl
        (fun bb q => bb.set_content q (CellContent.Ship bd.inner.ships.length))
        (Board.mk (bd.inner.ships ++ [⟨points.length % 256, nears, counter⟩])
          bd.inner.ship_counters bd.inner.state)))

/-- `BoardBuilder::add_ship_instance`: reject an empty point list, run all
checks (returning the first error, before any write), then place the ship. -/
def BoardBuilder.add_ship_instance (bd : BoardBuilder) (counter : Nat)
    (points : List Point) : Except ShipAddError BoardBuilder :=
  if points = [] then .error (.InternalError "Ship requires at least one point")
  else do
    let nears ← collect_placement bd.inner points points
    pure (place_ship bd counter points nears)

/-- One attempt of `add_ship_random`: an orientation flag and two raw random
draws; `random_range(0..=b)` is modelled by reducing the draw modulo `b + 1`,
and the in-bounds start range uses `saturating_sub` (`Nat` subtraction). -/
def ship_points_for (bounds : Point) (len : Nat) (a : Bool × Nat × Nat) :
    List Point :=
  let dx := if a.1 then len else 1
  let dy := if a.1 then 1 else len
  let sx := a.2.1 % (bounds.x - dx + 1)
  let sy := a.2.2 % (bounds.y - dy + 1)
  (List.range len).map (fun i => if a.1 then ⟨sx + i, sy⟩ else ⟨sx, sy + i⟩)

/-- Attempt number `k` of the `add_ship_random` retry loop. -/
def attemptAt (bd : BoardBuilder) (len counter : Nat)
    (oracle : Nat → Bool × Nat × Nat) (k : Nat) :
    Except ShipAddError BoardBuilder :=
  bd.add_ship_instance counter (ship_points_for bd.bounds len (oracle k))

/-- The `for _ in 0..1000` retry loop of `add_ship_random`: try attempts
`k, k+1, ...` while `fuel` lasts; a failed attempt leaves the builder
untouched (the source returns every placement error before writing). -/
def add_ship_random_aux (bd : BoardBuilder) (len counter : Nat)
    (oracle : Nat → Bool × Nat × Nat) : Nat → Nat → Except String BoardBuilder
  | _, 0 => .error "Could not place a ship after 1000 attempts"
  | k, fuel + 1 =>
    match attemptAt bd len counter oracle k with
    | .ok bd' => .ok bd'
    | .error _ => add_ship_random_aux bd len counter oracle (k + 1) fuel

/-- `BoardBuilder::add_ship_random` with its budget of 1000 attempts. -/
def BoardBuilder.add_ship_random (bd : BoardBuilder) (len counter : Nat)
    (oracle : Nat → Bool × Nat × Nat) : Except String BoardBuilder :=
  add_ship_random_aux bd len counter oracle 0 1000

/-- The `for _ in 0..ship.count` instance loop of `random`. -/
def add_instances (oracle : Nat → Nat → Bool × Nat × Nat) (len counter : Nat) :
    Nat → Nat → BoardBuilder → Except String BoardBuilder
  | 0, _, bd => .ok bd
  | n + 1, inst, bd =>
    match bd.add_ship_random len counter (oracle inst) with
    | .error e => .error e
    | .ok bd' => add_instances oracle len counter n (inst + 1) bd'

/-- `BoardBuilder::random`: for each class definition push one fresh counter,
then place `count` random instances of the class reusing it; return the
finished board or the first fatal error.  The random generator is an oracle
indexed by class, instance, and attempt. -/
def random_build_aux (oracle : Nat → Nat → Nat → Bool × Nat × Nat) :
    List ShipDefinition → Nat → BoardBuilder → Except String Board
  | [], _, bd => .ok bd.inner
  | d :: rest, k, bd =>
    match add_instances (oracle k) d.length bd.inner.ship_counters.length
        d.count 0 (bd.push_counter d.to_counter) with
    | .error e => .error e
    | .ok bd' => random_build_aux oracle rest (k + 1) bd'

/-- `BoardBuilder::random` entry point. -/
def BoardBuilder.random (bd : BoardBuilder) (defs : List ShipDefinition)
    (oracle : Nat → Nat → Nat → Bool × Nat × Nat) : Except String Board :=
  random_build_aux oracle defs 0 bd

/-- Builder states reachable during `BoardBuilder::random`: start from a
fresh grid with `u8` bounds, push class counters, and perform successful
`add_ship_instance` calls; failed attempts leave the builder untouched. -/
inductive Reached : BoardBuilder → Prop
  | init (bounds : Point) (hx : bounds.x ≤ 255) (hy : bounds.y ≤ 255) :
      Reached (BoardBuilder.new bounds)
  | push (bd : BoardBuilder) (c : ShipCounter) :
      Reached bd → Reached (bd.push_counter c)
  | add (bd bd' : BoardBuilder) (counter : Nat) (points : List Point) :
      Reached bd → bd.add_ship_instance counter points = .ok bd' → Reached bd'

theorem add_ship_random_aux_succ_ok (bd : BoardBuilder) (len counter : Nat)
    (oracle : Nat → Bool × Nat × Nat) (k fuel : Nat) (bdx : BoardBuilder)
    (h : attemptAt bd len counter oracle k = .ok bdx) :
    add_ship_random_aux bd len counter oracle k (fuel + 1) = .ok bdx := by
  unfold add_ship_random_aux
  rw [h]

theorem add_ship_random_aux_succ_error (bd : BoardBuilder) (len counter : Nat)
    (oracle : Nat → Bool × Nat × Nat) (k fuel : Nat) (e : ShipAddError)
    (h : attemptAt bd len counter oracle k = .error e) :
    add_ship_random_aux bd len counter oracle k (fuel + 1) =
      add_ship_random_aux bd len counter oracle (k + 1) fuel := by
  conv_lhs => unfold add_ship_random_aux
  rw [h]

theorem add_ship_random_aux_ok_iff (bd : BoardBuilder) (len counter : Nat)
    (oracle : Nat → Bool × Nat × Nat) (fuel : Nat) :
    ∀ (start : Nat) (bd' : BoardBuilder),
      add_ship_random_aux bd len counter oracle start fuel = .ok bd' ↔
        ∃ j, j < fuel ∧ attemptAt bd len counter oracle (start + j) = .ok bd' ∧
          ∀ m, m < j → ∃ e, attemptAt bd len counter oracle (start + m) = .error e := by
  induction fuel with
  | zero =>
    intro start bd'
    simp [add_ship_random_aux]
  | succ fuel ih =>
    intro start bd'
    cases hatt : attemptAt bd len counter oracle start with
    | ok bdx =>
      rw [add_ship_random_aux_succ_ok bd len counter oracle start fuel bdx hatt]
      constructor
      · intro h
        have hbd : bdx = bd' := by
          cases h
          rfl
        refine ⟨0, by omega, ?_, fun m hm => absurd hm (by omega)⟩
        rw [Nat.add_zero, hatt, hbd]
      · rintro ⟨j, hj, hok, hfail⟩
        cases j with
        | zero =>
          rw [Nat.add_zero, hatt] at hok
          have hbd : bdx = bd' := by
            cases hok
            rfl
          rw [hbd]
        | succ j =>
          rcases hfail 0 (by omega) with ⟨e, he⟩
          rw [Nat.add_zero, hatt] at he
          cases he
    | error e0 =>
      rw [add_ship_random_aux_succ_error bd len counter oracle start fuel e0 hatt]
      rw [ih (start + 1) bd']
      constructor
      · rintro ⟨j, hj, hok, hfail⟩
        refine ⟨j + 1, by omega, ?_, ?_⟩
        · rw [show start + (j + 1) = start + 1 + j by omega]
          exact hok
        · intro m hm
          cases m with
          | zero => exact ⟨e0, by rw [Nat.add_zero]; exact hatt⟩
          | succ m =>
            rcases hfail m (by omega) with ⟨e, he⟩
            exact ⟨e, by rw [show start + (m + 1) = start + 1 + m by omega]; exact he⟩
      · rintro ⟨j, hj, hok, hfail⟩
        cases j with
        | zero =>
          rw [Nat.add_zero, hatt] at hok
          cases hok
        | succ j =>
          refine ⟨j, by omega, ?_, ?_⟩
          · rw [show start + 1 + j = start + (j + 1) by omega]
            exact hok
          · intro m hm
            rcases hfail (m + 1) (by omega) with ⟨e, he⟩
            exact ⟨e, by rw [show start + 1 + m = start + (m + 1) by omega]; exact he⟩

theorem add_ship_random_aux_error_iff (bd : BoardBuilder) (len counter : Nat)
    (oracle : Nat → Bool × Nat × Nat) (fuel : Nat) :
    ∀ start : Nat,
      (∃ msg, add_ship_random_aux bd len counter oracle start fuel = .error msg) ↔
        ∀ j, j < fuel → ∃ e, attemptAt bd len counter oracle (start + j) = .error e := by
  induction fuel with
  | zero =>
    intro start
    simp [add_ship_random_aux]
  | succ fuel ih =>
    intro start
    cases hatt : attemptAt bd len counter oracle start with
    | ok bdx =>
      rw [add_ship_random_aux_succ_ok bd len counter oracle start fuel bdx hatt]
      constructor
      · rintro ⟨msg, hmsg⟩
        cases hmsg
      · intro h
        rcases h 0 (by omega) with ⟨e, he⟩
        rw [Nat.add_zero, hatt] at he
        cases he
    | error e0 =>
      rw [add_ship_random_aux_succ_error bd len counter oracle start fuel e0 hatt]
      rw [ih (start + 1)]
      constructor
      · intro h m hm
        cases m with
        | zero => exact ⟨e0, by rw [Nat.add_zero]; exact hatt⟩
        | succ m =>
          rcases h m (by omega) with ⟨e, he⟩
          exact ⟨e, by rw [show start + (m + 1) = start + 1 + m by omega]; exact he⟩
      · intro h j hj
        rcases h (j + 1) (by omega) with ⟨e, he⟩
        exact ⟨e, by rw [show start + 1 + j = start + (j + 1) by omega]; exact he⟩

/-- C7: `add_ship_random` performs at most 1000 placement attempts: it
returns success exactly when some attempt `k < 1000` places the ship (the
first such `k`, every earlier attempt having failed), and it returns the
placement-exhausted error exactly when all 1000 attempts fail. -/
theorem add_ship_random_spec (bd : BoardBuilder) (len counter : Nat)
    (oracle : Nat → Bool × Nat × Nat) :
    (∀ bd', bd.add_ship_random len counter oracle = .ok bd' ↔
      ∃ k, k < 1000 ∧ attemptAt bd len counter oracle k = .ok bd' ∧
        ∀ m, m < k → ∃ e, attemptAt bd len counter oracle m = .error e) ∧
    ((∃ msg, bd.add_ship_random len counter oracle = .error msg) ↔
      ∀ k, k < 1000 → ∃ e, attemptAt bd len counter oracle k = .error e) := by
  constructor
  · intro bd'
    have h := add_ship_random_aux_ok_iff bd len counter oracle 1000 0 bd'
    simpa using h
  · have h := add_ship_random_aux_error_iff bd len counter oracle 1000 0
    simpa using h

/-- C7 witness: on an empty 2×2 builder with a constant oracle, the loop
succeeds at some attempt below 1000 with all earlier attempts failing
(concretely, the first). -/
theorem add_ship_random_spec_witness :
    ∃ bd', ∃ k, k < 1000 ∧
      attemptAt (BoardBuilder.square 2) 1 0 (fun _ => (true, 0, 0)) k = .ok bd' ∧
      ∀ m, m < k → ∃ e,
        attemptAt (BoardBuilder.square 2) 1 0 (fun _ => (true, 0, 0)) m = .error e :=
  ⟨_, ((add_ship_random_spec (BoardBuilder.square 2) 1 0
      (fun _ => (true, 0, 0))).1 _).mp rfl⟩

theorem random_build_aux_zero_counts (oracle : Nat → Nat → Nat → Bool × Nat × Nat)
    (defs : List ShipDefinition) (hc : ∀ d ∈ defs, d.count = 0) :
    ∀ (k : Nat) (bd : BoardBuilder),
      (∀ c ∈ bd.inner.ship_counters, c.remaining = 0) →
      ∃ b, random_build_aux oracle defs k bd = .ok b ∧ b.is_win = true := by
  induction defs with
  | nil =>
    intro k bd hbd
    exact ⟨bd.inner, rfl, (is_win_iff_all_zero_aux bd.inner).mpr hbd⟩
  | cons d rest ih =>
    intro k bd hbd
    have hd0 : d.count = 0 := hc d (List.mem_cons_self d rest)
    have hrest : ∀ d' ∈ rest, d'.count = 0 :=
      fun d' hd' => hc d' (List.mem_cons_of_mem d hd')
    have h1 : ∀ c ∈ (bd.push_counter d.to_counter).inner.ship_counters,
        c.remaining = 0 := by
      intro c hcm
      simp only [BoardBuilder.push_counter] at hcm
      rcases List.mem_append.mp hcm with h | h
      · exact hbd c h
      · simp only [List.mem_singleton] at h
        subst h
        simpa [ShipDefinition.to_counter, ShipCounter.new] using hd0
    unfold random_build_aux
    rw [hd0]
    exact ih hrest (k + 1) (bd.push_counter d.to_counter) h1

/-- C10: a board built from an empty list of ship-class definitions, or from
definitions whose counts are all 0, wins immediately: the build succeeds (no
placement is attempted) and `is_win` is true before any hit. -/
theorem random_zero_counts_wins (n : Nat) (defs : List ShipDefinition)
    (oracle : Nat → Nat → Nat → Bool × Nat × Nat)
    (hc : ∀ d ∈ defs, d.count = 0) :
    ∃ b : Board, (BoardBuilder.square n).random defs oracle = .ok b ∧
      b.is_win = true :=
  random_build_aux_zero_counts oracle defs hc 0 (BoardBuilder.square n)
    (fun c hcm => absurd hcm (by simp [BoardBuilder.square, BoardBuilder.new]))

/-- C10 witness: the empty-board theorem at `n = 3` with one zero-count class
and with the empty class list. -/
theorem random_zero_counts_wins_witness :
    (∃ b : Board, (BoardBuilder.square 3).random [⟨"A", 2, 0⟩]
        (fun _ _ _ => (true, 0, 0)) = .ok b ∧ b.is_win = true) ∧
    (∃ b : Board, (BoardBuilder.square 3).random []
        (fun _ _ _ => (true, 0, 0)) = .ok b ∧ b.is_win = true) :=
  ⟨random_zero_counts_wins 3 [⟨"A", 2, 0⟩] (fun _ _ _ => (true, 0, 0))
      (by intro d hd; simp at hd; rw [hd]),
    random_zero_counts_wins 3 [] (fun _ _ _ => (true, 0, 0))
      (by intro d hd; cases hd)⟩

/-- Two distinct points within one king move of each other (the diagonal-
inclusive adjacency of the spec). -/
def adjacent (p q : Point) : Prop :=
  ¬ p = q ∧ p.x ≤ q.x + 1 ∧ q.x ≤ p.x + 1 ∧ p.y ≤ q.y + 1 ∧ q.y ≤ p.y + 1

theorem adjacent_symm (p q : Point) (h : adjacent p q) : adjacent q p := by
  rcases h with ⟨hne, h1, h2, h3, h4⟩
  exact ⟨fun e => hne e.symm, h2, h1, h4, h3⟩

/-- The cell at `p` is occupied by ship `i`. -/
def cellShip (b : Board) (p : Point) (i : Nat) : Prop :=
  ∃ c, b.get_cell p = some c ∧ c.content = CellContent.Ship i

/-- C1's separation property: cells of distinct ships are never equal nor
adjacent. -/
def Separated (b : Board) : Prop :=
  ∀ p q i j, cellShip b p i → cellShip b q j → i ≠ j → ¬ p = q ∧ ¬ adjacent p q

/-- Every ship id on the grid indexes an existing ship. -/
def ShipIdsValid (b : Board) : Prop :=
  ∀ p i, cellShip b p i → i < b.ships.length

/-- The grid fits `u8` coordinates: at most 256 rows, each of length at most
256 (so every on-grid point has coordinates at most 255). -/
def BoundsSmall (b : Board) : Prop :=
  b.state.length ≤ 256 ∧ ∀ x row, b.state.get? x = some row → row.length ≤ 256

/-- The placement invariant carried through the builder. -/
def SepInv (b : Board) : Prop := BoundsSmall b ∧ ShipIdsValid b ∧ Separated b

theorem get_cell_coord_small (b : Board) (hb : BoundsSmall b) (p : Point)
    (c : CellState) (h : b.get_cell p = some c) : p.x ≤ 255 ∧ p.y ≤ 255 := by
  unfold Board.get_cell at h
  cases hrow : b.state.get? p.x with
  | none =>
    rw [hrow] at h
    cases h
  | some row =>
    rw [hrow] at h
    simp only [Option.some_bind] at h
    have hx : p.x < b.state.length := by
      by_contra hge
      rw [List.get?_eq_none.mpr (by omega)] at hrow
      cases hrow
    have hy : p.y < row.length := by
      by_contra hge
      rw [List.get?_eq_none.mpr (by omega)] at h
      cases h
    have h1 := hb.1
    have h2 := hb.2 p.x row hrow
    omega

/-- The cell at `t`, if on the grid, does not contain a ship. -/
def cellNotShip (b : Board) (t : Point) : Prop :=
  ∀ c, b.get_cell t = some c → c.content.contains_ship = false

theorem scan_neighbors_ok (b : Board) (allPts : List Point) (p : Point) :
    ∀ (ds : List (Int × Int)) (tried nears res : List Point),
      scan_neighbors b allPts p ds tried nears = .ok res →
      (∀ t ∈ tried, cellNotShip b t) →
      ∀ dx dy, (dx, dy) ∈ ds → ∀ ap, p.try_add_delta dx dy = some ap →
        ap ∉ allPts → cellNotShip b ap := by
  intro ds
  induction ds with
  | nil =>
    intro tried nears res hok htr dx dy hd
    cases hd
  | cons d0 rest ih =>
    intro tried nears res hok htr
    rcases d0 with ⟨dx0, dy0⟩
    unfold scan_neighbors at hok
    cases hdelta : p.try_add_delta dx0 dy0 with
    | none =>
      rw [hdelta] at hok
      intro dx dy hd ap hap hnot
      rcases List.mem_cons.mp hd with heq | hdrest
      · injection heq with e1 e2
        subst e1
        subst e2
        rw [hdelta] at hap
        cases hap
      · exact ih tried nears res hok htr dx dy hdrest ap hap hnot
    | some ap0 =>
      rw [hdelta] at hok
      dsimp only at hok
      by_cases hskip : ap0 ∈ allPts ∨ ap0 ∈ tried
      · rw [if_pos hskip] at hok
        intro dx dy hd ap hap hnot
        rcases List.mem_cons.mp hd with heq | hdrest
        · injection heq with e1 e2
          subst e1
          subst e2
          rw [hdelta] at hap
          cases hap
          rcases hskip with h | h
          · exact absurd h hnot
          · exact htr ap0 h
        · exact ih tried nears res hok htr dx dy hdrest ap hap hnot
      · rw [if_neg hskip] at hok
        cases hcell : b.get_cell ap0 with
        | none =>
          rw [hcell] at hok
          dsimp only at hok
          have htr' : ∀ t ∈ ap0 :: tried, cellNotShip b t := by
            intro t ht
            rcases List.mem_cons.mp ht with rfl | ht
            · intro c hc
              rw [hcell] at hc
              cases hc
            · exact htr t ht
          intro dx dy hd ap hap hnot
          rcases List.mem_cons.mp hd with heq | hdrest
          · injection heq with e1 e2
            subst e1
            subst e2
            rw [hdelta] at hap
            cases hap
            intro c hc
            rw [hcell] at hc
            cases hc
          · exact ih (ap0 :: tried) nears res hok htr' dx dy hdrest ap hap hnot
        | some c =>
          rw [hcell] at hok
          dsimp only at hok
          by_cases hship : c.content.contains_ship = true
          · rw [if_pos hship] at hok
            cases hok
          · rw [if_neg hship] at hok
            have hcns : cellNotShip b ap0 := by
              intro c' hc'
              rw [hcell] at hc'
              cases hc'
              simpa using hship
            have htr' : ∀ t ∈ ap0 :: tried, cellNotShip b t := by
              intro t ht
              rcases List.mem_cons.mp ht with rfl | ht
              · exact hcns
              · exact htr t ht
            intro dx dy hd ap hap hnot
            rcases List.mem_cons.mp hd with heq | hdrest
            · injection heq with e1 e2
              subst e1
              subst e2
              rw [hdelta] at hap
              cases hap
              exact hcns
            · exact ih (ap0 :: tried) (ap0 :: nears) res hok htr' dx dy hdrest ap
                hap hnot

theorem check_point_ok (b : Board) (allPts : List Point) (p : Point)
    (nears : List Point) (hok : check_point b allPts p = .ok nears) :
    (∃ c, b.get_cell p = some c ∧ c.content.get_collision = none) ∧
    (∀ dx dy, (dx, dy) ∈ neighborDeltas → ∀ ap,
      p.try_add_delta dx dy = some ap → ap ∉ allPts → cellNotShip b ap) := by
  unfold check_point at hok
  cases hc : b.get_cell p with
  | none =>
    rw [hc] at hok
    cases hok
  | some c =>
    rw [hc] at hok
    dsimp only at hok
    cases hcol : c.content.get_collision with
    | some s =>
      rw [hcol] at hok
      cases hok
    | none =>
      rw [hcol] at hok
      dsimp only at hok
      exact ⟨⟨c, rfl, hcol⟩,
        scan_neighbors_ok b allPts p neighborDeltas [] [] nears hok
          (fun t ht => absurd ht (List.not_mem_nil t))⟩

theorem collect_placement_ok (b : Board) (allPts : List Point) :
    ∀ (pts nears : List Point),
      collect_placement b allPts pts = .ok nears →
      ∀ p ∈ pts,
        (∃ c, b.get_cell p = some c ∧ c.content.get_collision = none) ∧
        (∀ dx dy, (dx, dy) ∈ neighborDeltas → ∀ ap,
          p.try_add_delta dx dy = some ap → ap ∉ allPts → cellNotShip b ap) := by
  intro pts
  induction pts with
  | nil =>
    intro nears hok p hp
    cases hp
  | cons p0 rest ih =>
    intro nears hok p hp
    unfold collect_placement at hok
    cases hcp : check_point b allPts p0 with
    | error e =>
      rw [hcp] at hok
      cases hok
    | ok n0 =>
      rw [hcp] at hok
      cases hcr : collect_placement b allPts rest with
      | error e =>
        rw [hcr] at hok
        cases hok
      | ok nrest =>
        rcases List.mem_cons.mp hp with rfl | hprest
        · exact check_point_ok b allPts p n0 hcp
        · exact ih nrest hcr p hprest

theorem set_content_fold_ships (L : List Point) (cc : CellContent) (b : Board) :
    (L.foldl (fun bb q => bb.set_content q cc) b).ships = b.ships := by
  induction L generalizing b with
  | nil => rfl
  | cons r rest ih =>
    rw [List.foldl_cons, ih]
    rfl

theorem set_content_fold_counters (L : List Point) (cc : CellContent) (b : Board) :
    (L.foldl (fun bb q => bb.set_content q cc) b).ship_counters = b.ship_counters := by
  induction L generalizing b with
  | nil => rfl
  | cons r rest ih =>
    rw [List.foldl_cons, ih]
    rfl

theorem place_ship_ships (bd : BoardBuilder) (counter : Nat)
    (points nears : List Point) :
    (place_ship bd counter points nears).inner.ships =
      bd.inner.ships ++ [⟨points.length % 256, nears, counter⟩] := by
  unfold place_ship
  rw [set_content_fold_ships, set_content_fold_ships]

theorem place_ship_counters (bd : BoardBuilder) (counter : Nat)
    (points nears : List Point) :
    (place_ship bd counter points nears).inner.ship_counters =
      bd.inner.ship_counters := by
  unfold place_ship
  rw [set_content_fold_counters, set_content_fold_counters]

theorem place_ship_get_cell (bd : BoardBuilder) (counter : Nat)
    (points nears : List Point) (q : Point) :
    (place_ship bd counter points nears).inner.get_cell q =
      if q ∈ nears then
        (bd.inner.get_cell q).map
          (fun c => { c with content := CellContent.NearShip bd.inner.ships.length })
      else if q ∈ points then
        (bd.inner.get_cell q).map
          (fun c => { c with content := CellContent.Ship bd.inner.ships.length })
      else bd.inner.get_cell q := by
  unfold place_ship
  rw [get_cell_set_content_fold, get_cell_set_content_fold]
  have hbase : (Board.mk (bd.inner.ships ++ [⟨points.length % 256, nears, counter⟩])
      bd.inner.ship_counters bd.inner.state).get_cell q = bd.inner.get_cell q := rfl
  rw [hbase]
  by_cases hn : q ∈ nears
  · simp only [if_pos hn]
    by_cases hp : q ∈ points
    · simp only [if_pos hp]
      cases bd.inner.get_cell q <;> rfl
    · simp only [if_neg hp]
  · simp only [if_neg hn]

theorem adjacent_delta (p q : Point) (hqx : q.x ≤ 255) (hqy : q.y ≤ 255)
    (hadj : adjacent p q) :
    ∃ dx dy, (dx, dy) ∈ neighborDeltas ∧ p.try_add_delta dx dy = some q := by
  rcases hadj with ⟨hne, h1, h2, h3, h4⟩
  refine ⟨(q.x : Int) - p.x, (q.y : Int) - p.y, ?_, ?_⟩
  · have hdx : (q.x : Int) - p.x = -1 ∨ (q.x : Int) - p.x = 0 ∨
        (q.x : Int) - p.x = 1 := by omega
    have hdy : (q.y : Int) - p.y = -1 ∨ (q.y : Int) - p.y = 0 ∨
        (q.y : Int) - p.y = 1 := by omega
    rcases hdx with h | h | h <;> rcases hdy with h' | h' | h' <;> rw [h, h'] <;>
      simp [neighborDeltas]
  · simp only [Point.try_add_delta]
    rw [if_pos (by refine ⟨by omega, by omega, by omega, by omega⟩)]
    have hx' : ((p.x : Int) + ((q.x : Int) - p.x)).toNat = q.x := by omega
    have hy' : ((p.y : Int) + ((q.y : Int) - p.y)).toNat = q.y := by omega
    rw [hx', hy']

theorem bounds_small_cell_modify (b : Board) (p : Point) (f : CellState → CellState)
    (hb : BoundsSmall b) : BoundsSmall (b.cell_modify p f) := by
  constructor
  · show (modifyAt (modifyAt f p.y) p.x b.state).length ≤ 256
    rw [length_modifyAt]
    exact hb.1
  · intro x row hrow
    have hrow' : (modifyAt (modifyAt f p.y) p.x b.state).get? x = some row := hrow
    rw [get?_modifyAt] at hrow'
    by_cases hx : x = p.x
    · rw [if_pos hx] at hrow'
      cases ho : b.state.get? x with
      | none =>
        rw [ho] at hrow'
        cases hrow'
      | some row0 =>
        rw [ho] at hrow'
        simp only [Option.map_some'] at hrow'
        cases hrow'
        rw [length_modifyAt]
        exact hb.2 x row0 ho
    · rw [if_neg hx] at hrow'
      exact hb.2 x row hrow'

theorem bounds_small_set_content_fold (L : List Point) (cc : CellContent)
    (b : Board) (hb : BoundsSmall b) :
    BoundsSmall (L.foldl (fun bb q => bb.set_content q cc) b) := by
  induction L generalizing b with
  | nil => exact hb
  | cons r rest ih =>
    rw [List.foldl_cons]
    exact ih _ (bounds_small_cell_modify b r _ hb)

theorem place_ship_bounds_small (bd : BoardBuilder) (counter : Nat)
    (points nears : List Point) (hb : BoundsSmall bd.inner) :
    BoundsSmall (place_ship bd counter points nears).inner := by
  unfold place_ship
  exact bounds_small_set_content_fold _ _ _
    (bounds_small_set_content_fold _ _ _ hb)

theorem cellShip_place (bd : BoardBuilder) (counter : Nat)
    (points nears : List Point) (q : Point) (j : Nat)
    (h : cellShip (place_ship bd counter points nears).inner q j) :
    (q ∈ points ∧ q ∉ nears ∧ j = bd.inner.ships.length ∧
      ∃ c, bd.inner.get_cell q = some c) ∨
    (q ∉ points ∧ q ∉ nears ∧ cellShip bd.inner q j) := by
  obtain ⟨c', hc', hcont⟩ := h
  rw [place_ship_get_cell] at hc'
  by_cases hn : q ∈ nears
  · rw [if_pos hn] at hc'
    cases ho : bd.inner.get_cell q with
    | none =>
      rw [ho] at hc'
      cases hc'
    | some c0 =>
      rw [ho] at hc'
      simp only [Option.map_some'] at hc'
      cases hc'
      cases hcont
  · rw [if_neg hn] at hc'
    by_cases hp : q ∈ points
    · rw [if_pos hp] at hc'
      cases ho : bd.inner.get_cell q with
      | none =>
        rw [ho] at hc'
        cases hc'
      | some c0 =>
        rw [ho] at hc'
        simp only [Option.map_some'] at hc'
        cases hc'
        have hj : CellContent.Ship bd.inner.ships.length = CellContent.Ship j := hcont
        injection hj with hj'
        exact Or.inl ⟨hp, hn, hj'.symm, ⟨c0, rfl⟩⟩
    · rw [if_neg hp] at hc'
      exact Or.inr ⟨hp, hn, ⟨c', hc', hcont⟩⟩

theorem new_old_no_touch (bd : BoardBuilder) (points : List Point)
    (hbs : BoundsSmall bd.inner)
    (hchecks : ∀ p ∈ points,
      (∃ c, bd.inner.get_cell p = some c ∧ c.content.get_collision = none) ∧
      (∀ dx dy, (dx, dy) ∈ neighborDeltas → ∀ ap,
        p.try_add_delta dx dy = some ap → ap ∉ points → cellNotShip bd.inner ap))
    (p1 q1 : Point) (j : Nat) (hp1 : p1 ∈ points) (hq1pts : q1 ∉ points)
    (hold : cellShip bd.inner q1 j) :
    ¬ p1 = q1 ∧ ¬ adjacent p1 q1 := by
  obtain ⟨⟨c1, hc1, hcol1⟩, hnbr⟩ := hchecks p1 hp1
  obtain ⟨c2, hc2, hcont2⟩ := hold
  constructor
  · intro heq
    subst heq
    rw [hc1] at hc2
    cases hc2
    rw [hcont2] at hcol1
    cases hcol1
  · intro hadj
    obtain ⟨hx255, hy255⟩ := get_cell_coord_small bd.inner hbs q1 c2 hc2
    obtain ⟨dx, dy, hdmem, hdelta⟩ := adjacent_delta p1 q1 hx255 hy255 hadj
    have hns := hnbr dx dy hdmem q1 hdelta hq1pts c2 hc2
    rw [hcont2] at hns
    cases hns

theorem add_ship_instance_sep (bd bd' : BoardBuilder) (counter : Nat)
    (points : List Point) (hinv : SepInv bd.inner)
    (hok : bd.add_ship_instance counter points = .ok bd') :
    SepInv bd'.inner := by
  obtain ⟨hbs, hids, hsep⟩ := hinv
  unfold BoardBuilder.add_ship_instance at hok
  by_cases hnil : points = []
  · rw [if_pos hnil] at hok
    cases hok
  · rw [if_neg hnil] at hok
    cases hcol : collect_placement bd.inner points points with
    | error e =>
      rw [hcol] at hok
      cases hok
    | ok nears =>
      rw [hcol] at hok
      have hbd' : (Except.ok (place_ship bd counter points nears) :
          Except ShipAddError BoardBuilder) = .ok bd' := hok
      cases hbd'
      have hchecks := collect_placement_ok bd.inner points points nears hcol
      refine ⟨place_ship_bounds_small bd counter points nears hbs, ?_, ?_⟩
      · intro q j hq
        rw [place_ship_ships, List.length_append]
        rcases cellShip_place bd counter points nears q j hq with
          ⟨_, _, rfl, _⟩ | ⟨_, _, hold⟩
        · simp
        · have := hids q j hold
          omega
      · intro p1 q1 i j h1 h2 hij
        rcases cellShip_place bd counter points nears p1 i h1 with
          ⟨hp1pts, hp1n, hieq, c1, hc1⟩ | ⟨hp1pts, hp1n, hold1⟩
        · rcases cellShip_place bd counter points nears q1 j h2 with
            ⟨hq1pts, hq1n, hjeq, c2, hc2⟩ | ⟨hq1pts, hq1n, hold2⟩
          · rw [hieq, hjeq] at hij
            exact absurd rfl hij
          · exact new_old_no_touch bd points hbs hchecks p1 q1 j hp1pts
              hq1pts hold2
        · rcases cellShip_place bd counter points nears q1 j h2 with
            ⟨hq1pts, hq1n, hjeq, c2, hc2⟩ | ⟨hq1pts, hq1n, hold2⟩
          · have hsw := new_old_no_touch bd points hbs hchecks q1 p1 i
              hq1pts hp1pts hold1
            exact ⟨fun e => hsw.1 e.symm, fun a => hsw.2 (adjacent_symm p1 q1 a)⟩
          · exact hsep p1 q1 i j hold1 hold2 hij

theorem get?_replicate_eq (a : α) (n m : Nat) :
    (List.replicate n a).get? m = if m < n then some a else none := by
  induction n generalizing m with
  | zero => simp
  | succ n ih =>
    cases m with
    | zero => simp [List.replicate]
    | succ m =>
      simp only [List.replicate, List.get?_cons_succ, ih]
      by_cases h : m < n
      · rw [if_pos h, if_pos (by omega)]
      · rw [if_neg h, if_neg (by omega)]

theorem get_cell_new_builder (bounds : Point) (p : Point) :
    (BoardBuilder.new bounds).inner.get_cell p =
      if p.x < bounds.x ∧ p.y < bounds.y then some CellState.default else none := by
  unfold BoardBuilder.new Board.get_cell
  simp only
  rw [get?_replicate_eq]
  by_cases hx : p.x < bounds.x
  · rw [if_pos hx]
    simp only [Option.some_bind]
    rw [get?_replicate_eq]
    by_cases hy : p.y < bounds.y
    · rw [if_pos hy, if_pos ⟨hx, hy⟩]
    · rw [if_neg hy, if_neg (fun h => hy h.2)]
  · rw [if_neg hx]
    simp only [Option.none_bind]
    rw [if_neg (fun h => hx h.1)]

theorem reached_sep_inv (bd : BoardBuilder) (h : Reached bd) : SepInv bd.inner := by
  induction h with
  | init bounds hx hy =>
    refine ⟨⟨?_, ?_⟩, ?_, ?_⟩
    · show (List.replicate bounds.x (List.replicate bounds.y CellState.default)).length
        ≤ 256
      rw [List.length_replicate]
      omega
    · intro x row hrow
      have hrow' : (List.replicate bounds.x
          (List.replicate bounds.y CellState.default)).get? x = some row := hrow
      rw [get?_replicate_eq] at hrow'
      by_cases hlt : x < bounds.x
      · rw [if_pos hlt] at hrow'
        cases hrow'
        rw [List.length_replicate]
        omega
      · rw [if_neg hlt] at hrow'
        cases hrow'
    · intro p i hp
      obtain ⟨c, hc, hcont⟩ := hp
      rw [get_cell_new_builder] at hc
      by_cases hin : p.x < bounds.x ∧ p.y < bounds.y
      · rw [if_pos hin] at hc
        cases hc
        cases hcont
      · rw [if_neg hin] at hc
        cases hc
    · intro p q i j h1 h2 hij
      obtain ⟨c, hc, hcont⟩ := h1
      rw [get_cell_new_builder] at hc
      by_cases hin : p.x < bounds.x ∧ p.y < bounds.y
      · rw [if_pos hin] at hc
        cases hc
        cases hcont
      · rw [if_neg hin] at hc
        cases hc
  | push bd c hr ih => exact ih
  | add bd bd' counter points hr hok ih =>
    exact add_ship_instance_sep bd bd' counter points ih hok

/-- C1: for every board produced by a successful run of `BoardBuilder.random`
— equivalently, by any sequence of successful `add_ship_instance` calls from
a fresh builder — no two ships occupy the same cell, and no cell occupied by
one ship is adjacent, including diagonally, to a cell occupied by a
different ship. -/
theorem board_separated_of_reached (bd : BoardBuilder) (h : Reached bd) :
    Separated bd.inner :=
  (reached_sep_inv bd h).2.2

/-- C1 witness: placing a single length-1 ship at (0,0) on a fresh 3×3
builder succeeds, and the resulting board is separated. -/
theorem board_separated_witness :
    ∃ bd', (BoardBuilder.square 3).add_ship_instance 0 [⟨0, 0⟩] = .ok bd' ∧
      Separated bd'.inner :=
  ⟨_, rfl, board_separated_of_reached _
    (Reached.add (BoardBuilder.square 3) _ 0 [⟨0, 0⟩]
      (Reached.init ⟨3, 3⟩ (by decide) (by decide)) rfl)⟩

theorem countP_modifyAt (pred : α → Bool) (f : α → α) (n : Nat) (l : List α)
    (a : α) (h : l.get? n = some a) :
    (modifyAt f n l).countP pred + (if pred a then 1 else 0) =
      l.countP pred + (if pred (f a) then 1 else 0) := by
  induction l generalizing n with
  | nil => cases h
  | cons x xs ih =>
    cases n with
    | zero =>
      cases h
      simp only [modifyAt, List.countP_cons]
      by_cases h1 : pred a <;> by_cases h2 : pred (f a) <;> simp [h1, h2]
    | succ n =>
      simp only [List.get?_cons_succ] at h
      simp only [modifyAt, List.countP_cons]
      have := ih n h
      omega

theorem modifyAt_ge (f : α → α) (n : Nat) (l : List α) (h : l.length ≤ n) :
    modifyAt f n l = l := by
  induction l generalizing n with
  | nil => cases n <;> rfl
  | cons x xs ih =>
    cases n with
    | zero => simp at h
    | succ n =>
      simp only [List.length_cons] at h
      simp only [modifyAt]
      rw [ih n (by omega)]

theorem modifyAt_eq_self (f : α → α) (n : Nat) (l : List α) (a : α)
    (h : l.get? n = some a) (hf : f a = a) : modifyAt f n l = l := by
  induction l generalizing n with
  | nil => cases h
  | cons x xs ih =>
    cases n with
    | zero =>
      cases h
      simp only [modifyAt, hf]
    | succ n =>
      simp only [List.get?_cons_succ] at h
      simp only [modifyAt]
      rw [ih n h]

/-- The number of grid cells satisfying `pred`. -/
def cellCount (b : Board) (pred : CellState → Bool) : Nat :=
  (b.state.map (fun row => row.countP pred)).sum

theorem sum_map_modifyAt (g : β → Nat) (f : β → β) (n : Nat) (l : List β)
    (a : β) (h : l.get? n = some a) :
    ((modifyAt f n l).map g).sum + g a = (l.map g).sum + g (f a) := by
  induction l generalizing n with
  | nil => cases h
  | cons x xs ih =>
    cases n with
    | zero =>
      cases h
      simp only [modifyAt, List.map_cons, List.sum_cons]
      omega
    | succ n =>
      simp only [List.get?_cons_succ] at h
      simp only [modifyAt, List.map_cons, List.sum_cons]
      have := ih n h
      omega

theorem cellCount_cell_modify (b : Board) (p : Point) (f : CellState → CellState)
    (pred : CellState → Bool) (c : CellState) (h : b.get_cell p = some c) :
    cellCount (b.cell_modify p f) pred + (if pred c then 1 else 0) =
      cellCount b pred + (if pred (f c) then 1 else 0) := by
  unfold Board.get_cell at h
  cases hrow : b.state.get? p.x with
  | none =>
    rw [hrow] at h
    cases h
  | some row =>
    rw [hrow] at h
    simp only [Option.some_bind] at h
    have hl : cellCount (b.cell_modify p f) pred =
        ((modifyAt (modifyAt f p.y) p.x b.state).map
          (fun r => r.countP pred)).sum := rfl
    have hr : cellCount b pred = (b.state.map (fun r => r.countP pred)).sum := rfl
    rw [hl, hr]
    have hsum := sum_map_modifyAt (fun r => r.countP pred) (modifyAt f p.y) p.x
      b.state row hrow
    have hrowcnt := countP_modifyAt pred f p.y row c h
    simp only at hsum
    omega

theorem cellCount_cell_modify_of_none (b : Board) (p : Point)
    (f : CellState → CellState) (pred : CellState → Bool)
    (h : b.get_cell p = none) :
    cellCount (b.cell_modify p f) pred = cellCount b pred := by
  unfold Board.get_cell at h
  cases hrow : b.state.get? p.x with
  | none =>
    have hge : b.state.length ≤ p.x := by
      by_contra hlt
      rcases List.get?_eq_get (by omega : p.x < b.state.length) with hsome
      rw [hsome] at hrow
      cases hrow
    show ((modifyAt (modifyAt f p.y) p.x b.state).map
        (fun r => r.countP pred)).sum = _
    rw [modifyAt_ge _ _ _ hge]
    rfl
  | some row =>
    rw [hrow] at h
    simp only [Option.some_bind] at h
    have hge : row.length ≤ p.y := by
      by_contra hlt
      rcases List.get?_eq_get (by omega : p.y < row.length) with hsome
      rw [hsome] at h
      cases h
    show ((modifyAt (modifyAt f p.y) p.x b.state).map
        (fun r => r.countP pred)).sum = _
    rw [modifyAt_eq_self (modifyAt f p.y) p.x b.state row hrow
      (modifyAt_ge f p.y row hge)]
    rfl

theorem countP_pos_of_get? (pred : α → Bool) (l : List α) (n : Nat) (a : α)
    (h : l.get? n = some a) (hp : pred a = true) : 0 < l.countP pred := by
  induction l generalizing n with
  | nil => cases h
  | cons x xs ih =>
    cases n with
    | zero =>
      cases h
      simp [List.countP_cons, hp]
    | succ n =>
      simp only [List.get?_cons_succ] at h
      have := ih n h
      simp only [List.countP_cons]
      omega

theorem cellCount_pos (b : Board) (pred : CellState → Bool) (p : Point)
    (c : CellState) (h : b.get_cell p = some c) (hp : pred c = true) :
    0 < cellCount b pred := by
  unfold Board.get_cell at h
  cases hrow : b.state.get? p.x with
  | none =>
    rw [hrow] at h
    cases h
  | some row =>
    rw [hrow] at h
    simp only [Option.some_bind] at h
    have h1 : 0 < row.countP pred := countP_pos_of_get? pred row p.y c h hp
    have hmem : row.countP pred ∈ b.state.map (fun r => r.countP pred) :=
      List.mem_map.mpr ⟨row, List.get?_mem hrow, rfl⟩
    have hle := List.single_le_sum
      (fun (x : Nat) _ => Nat.zero_le x) _ hmem
    unfold cellCount
    omega

theorem cellCount_zero (b : Board) (pred : CellState → Bool)
    (h : ∀ p c, b.get_cell p = some c → pred c = false) :
    cellCount b pred = 0 := by
  unfold cellCount
  rw [List.sum_eq_zero]
  intro n hn
  rw [List.mem_map] at hn
  obtain ⟨row, hrowmem, rfl⟩ := hn
  rw [List.countP_eq_zero]
  intro c hc
  obtain ⟨x, hx⟩ := List.get?_of_mem hrowmem
  obtain ⟨y, hy⟩ := List.get?_of_mem hc
  have : b.get_cell ⟨x, y⟩ = some c := by
    unfold Board.get_cell
    rw [hx]
    simpa using hy
  simp [h ⟨x, y⟩ c this]

/-- Every ship's counter reference indexes an existing counter. -/
def ShipsCtrValid (b : Board) : Prop :=
  ∀ i s, b.ships.get? i = some s → s.counter < b.ship_counters.length

/-- The cell belongs to ship `i` and is still hidden. -/
def unexposedShipCell (i : Nat) (c : CellState) : Bool :=
  decide (c.content = CellContent.Ship i) && !c.exposed

/-- Each ship's remaining length equals the number of its still-hidden
cells. -/
def LenCells (b : Board) : Prop :=
  ∀ i s, b.ships.get? i = some s → s.length = cellCount b (unexposedShipCell i)

/-- Every recorded nearby cell is on the grid and holds `NearShip` content,
so a sink cascade only ever exposes buffer cells. -/
def NearbyOk (b : Board) : Prop :=
  ∀ i s, b.ships.get? i = some s → ∀ q ∈ s.nearby_cells,
    ∃ c, b.get_cell q = some c ∧ ∃ m, c.content = CellContent.NearShip m

/-- The ship belongs to class `k` and is still afloat. -/
def livePred (k : Nat) (s : Ship) : Bool :=
  decide (s.counter = k) && decide (s.length ≠ 0)

/-- The ship belongs to class `k`. -/
def classPred (k : Nat) (s : Ship) : Bool := decide (s.counter = k)

/-- Number of afloat ships of class `k`. -/
def liveCount (b : Board) (k : Nat) : Nat := b.ships.countP (livePred k)

/-- Number of ships of class `k`. -/
def classCount (b : Board) (k : Nat) : Nat := b.ships.countP (classPred k)

/-- Each counter's `remaining` equals the number of live ships of its class
and its `total` the class size, within the `u8` range. -/
def CounterLive (b : Board) : Prop :=
  ∀ k c, b.ship_counters.get? k = some c →
    c.remaining = liveCount b k ∧ c.total = classCount b k ∧ c.total ≤ 255

/-- No cell is exposed (true throughout construction). -/
def AllUnexposed (b : Board) : Prop :=
  ∀ p c, b.get_cell p = some c → c.exposed = false

/-- The full invariant established by `random` and preserved by `hit`. -/
def Good (b : Board) : Prop :=
  SepInv b ∧ ShipsCtrValid b ∧ LenCells b ∧ NearbyOk b ∧ CounterLive b

theorem get_collision_none_eq_water (cc : CellContent)
    (h : cc.get_collision = none) : cc = CellContent.Water := by
  cases cc with
  | Water => rfl
  | NearShip m => cases h
  | Ship m => cases h

theorem contains_ship_false_cases (cc : CellContent)
    (h : cc.contains_ship = false) :
    cc = CellContent.Water ∨ ∃ m, cc = CellContent.NearShip m := by
  cases cc with
  | Water => exact Or.inl rfl
  | NearShip m => exact Or.inr ⟨m, rfl⟩
  | Ship m => cases h

theorem cellCount_set_content_fold_eq (L : List Point) (cc : CellContent)
    (pred : CellState → Bool) :
    ∀ b : Board,
      (∀ q ∈ L, ∀ c, b.get_cell q = some c →
        pred { c with content := cc } = pred c) →
      cellCount (L.foldl (fun bb q => bb.set_content q cc) b) pred =
        cellCount b pred := by
  induction L with
  | nil =>
    intro b _
    rfl
  | cons r rest ih =>
    intro b h
    rw [List.foldl_cons]
    have hstep : cellCount (b.set_content r cc) pred = cellCount b pred := by
      rw [show b.set_content r cc =
        b.cell_modify r (fun c => { c with content := cc }) from rfl]
      cases hc : b.get_cell r with
      | none => exact cellCount_cell_modify_of_none b r _ pred hc
      | some c =>
        have hm := cellCount_cell_modify b r
          (fun c => { c with content := cc }) pred c hc
        have heq := h r (List.mem_cons_self r rest) c hc
        rw [heq] at hm
        omega
    have hcond : ∀ q ∈ rest, ∀ c, (b.set_content r cc).get_cell q = some c →
        pred { c with content := cc } = pred c := by
      intro q hq c hc
      rw [get_cell_set_content] at hc
      by_cases hqr : q = r
      · rw [if_pos hqr] at hc
        cases ho : b.get_cell q with
        | none =>
          rw [ho] at hc
          cases hc
        | some c0 =>
          rw [ho] at hc
          simp only [Option.map_some'] at hc
          cases hc
          rfl
      · rw [if_neg hqr] at hc
        exact h q (List.mem_cons_of_mem r hq) c hc
    rw [ih (b.set_content r cc) hcond, hstep]

theorem cellCount_expose_fold_eq (L : List Point) (pred : CellState → Bool) :
    ∀ b : Board,
      (∀ q ∈ L, ∀ c, b.get_cell q = some c →
        pred { c with exposed := true } = pred c) →
      cellCount (L.foldl (fun bb q => bb.expose_cell q) b) pred =
        cellCount b pred := by
  induction L with
  | nil =>
    intro b _
    rfl
  | cons r rest ih =>
    intro b h
    rw [List.foldl_cons]
    have hstep : cellCount (b.expose_cell r) pred = cellCount b pred := by
      rw [show b.expose_cell r =
        b.cell_modify r (fun c => { c with exposed := true }) from rfl]
      cases hc : b.get_cell r with
      | none => exact cellCount_cell_modify_of_none b r _ pred hc
      | some c =>
        have hm := cellCount_cell_modify b r
          (fun c => { c with exposed := true }) pred c hc
        have heq := h r (List.mem_cons_self r rest) c hc
        rw [heq] at hm
        omega
    have hcond : ∀ q ∈ rest, ∀ c, (b.expose_cell r).get_cell q = some c →
        pred { c with exposed := true } = pred c := by
      intro q hq c hc
      rw [get_cell_expose] at hc
      by_cases hqr : q = r
      · rw [if_pos hqr] at hc
        cases ho : b.get_cell q with
        | none =>
          rw [ho] at hc
          cases hc
        | some c0 =>
          rw [ho] at hc
          simp only [Option.map_some'] at hc
          cases hc
          rfl
      · rw [if_neg hqr] at hc
        exact h q (List.mem_cons_of_mem r hq) c hc
    rw [ih (b.expose_cell r) hcond, hstep]

theorem cellCount_set_content_fold_add (L : List Point) (cc : CellContent)
    (pred : CellState → Bool) :
    ∀ b : Board, L.Nodup →
      (∀ q ∈ L, ∃ c, b.get_cell q = some c ∧ pred c = false ∧
        pred { c with content := cc } = true) →
      cellCount (L.foldl (fun bb q => bb.set_content q cc) b) pred =
        cellCount b pred + L.length := by
  induction L with
  | nil =>
    intro b _ _
    rfl
  | cons r rest ih =>
    intro b hnd h
    rw [List.foldl_cons]
    obtain ⟨c, hc, hf, ht⟩ := h r (List.mem_cons_self r rest)
    have hstep : cellCount (b.set_content r cc) pred = cellCount b pred + 1 := by
      rw [show b.set_content r cc =
        b.cell_modify r (fun c => { c with content := cc }) from rfl]
      have hm := cellCount_cell_modify b r
        (fun c => { c with content := cc }) pred c hc
      rw [hf, ht] at hm
      simp at hm
      omega
    have hcond : ∀ q ∈ rest, ∃ c', (b.set_content r cc).get_cell q = some c' ∧
        pred c' = false ∧ pred { c' with content := cc } = true := by
      intro q hq
      obtain ⟨c', hc', hf', ht'⟩ := h q (List.mem_cons_of_mem r hq)
      have hqr : q ≠ r := by
        intro e
        subst e
        exact (List.nodup_cons.mp hnd).1 hq
      refine ⟨c', ?_, hf', ht'⟩
      rw [get_cell_set_content, if_neg hqr]
      exact hc'
    rw [ih (b.set_content r cc) (List.nodup_cons.mp hnd).2 hcond, hstep,
      List.length_cons]
    omega

theorem get?_append_singleton_cases (l : List α) (a x : α) (i : Nat)
    (h : (l ++ [a]).get? i = some x) :
    (i < l.length ∧ l.get? i = some x) ∨ (i = l.length ∧ x = a) := by
  by_cases hi : i < l.length
  · rw [List.get?_append hi] at h
    exact Or.inl ⟨hi, h⟩
  · have hlen : (l ++ [a]).length = l.length + 1 := by simp
    have hi2 : i < l.length + 1 := by
      by_contra hge
      rw [List.get?_eq_none.mpr (by omega)] at h
      cases h
    have : i = l.length := by omega
    subst this
    rw [List.get?_concat_length] at h
    cases h
    exact Or.inr ⟨rfl, rfl⟩

theorem scan_neighbors_nears (b : Board) (allPts : List Point) (p : Point) :
    ∀ (ds : List (Int × Int)) (tried nears0 res : List Point),
      scan_neighbors b allPts p ds tried nears0 = .ok res →
      (∀ q ∈ nears0, q ∉ allPts ∧ ∃ c, b.get_cell q = some c ∧
        c.content.contains_ship = false) →
      ∀ q ∈ res, q ∉ allPts ∧ ∃ c, b.get_cell q = some c ∧
        c.content.contains_ship = false := by
  intro ds
  induction ds with
  | nil =>
    intro tried nears0 res hok hn q hq
    unfold scan_neighbors at hok
    cases hok
    exact hn q (List.mem_reverse.mp hq)
  | cons d0 rest ih =>
    intro tried nears0 res hok hn
    rcases d0 with ⟨dx0, dy0⟩
    unfold scan_neighbors at hok
    cases hdelta : p.try_add_delta dx0 dy0 with
    | none =>
      rw [hdelta] at hok
      exact ih tried nears0 res hok hn
    | some ap0 =>
      rw [hdelta] at hok
      dsimp only at hok
      by_cases hskip : ap0 ∈ allPts ∨ ap0 ∈ tried
      · rw [if_pos hskip] at hok
        exact ih tried nears0 res hok hn
      · rw [if_neg hskip] at hok
        cases hcell : b.get_cell ap0 with
        | none =>
          rw [hcell] at hok
          dsimp only at hok
          exact ih (ap0 :: tried) nears0 res hok hn
        | some c =>
          rw [hcell] at hok
          dsimp only at hok
          by_cases hship : c.content.contains_ship = true
          · rw [if_pos hship] at hok
            cases hok
          · rw [if_neg hship] at hok
            have hn' : ∀ q ∈ ap0 :: nears0, q ∉ allPts ∧
                ∃ c', b.get_cell q = some c' ∧
                  c'.content.contains_ship = false := by
              intro q hq
              rcases List.mem_cons.mp hq with rfl | hq
              · exact ⟨fun hmem => hskip (Or.inl hmem),
                  ⟨c, hcell, by simpa using hship⟩⟩
              · exact hn q hq
            exact ih (ap0 :: tried) (ap0 :: nears0) res hok hn'

theorem check_point_nears (b : Board) (allPts : List Point) (p : Point)
    (nears : List Point) (hok : check_point b allPts p = .ok nears) :
    ∀ q ∈ nears, q ∉ allPts ∧ ∃ c, b.get_cell q = some c ∧
      c.content.contains_ship = false := by
  unfold check_point at hok
  cases hc : b.get_cell p with
  | none =>
    rw [hc] at hok
    cases hok
  | some c =>
    rw [hc] at hok
    dsimp only at hok
    cases hcol : c.content.get_collision with
    | some s =>
      rw [hcol] at hok
      cases hok
    | none =>
      rw [hcol] at hok
      dsimp only at hok
      exact scan_neighbors_nears b allPts p neighborDeltas [] [] nears hok
        (fun q hq => absurd hq (List.not_mem_nil q))

theorem collect_placement_nears (b : Board) (allPts : List Point) :
    ∀ (pts nears : List Point),
      collect_placement b allPts pts = .ok nears →
      ∀ q ∈ nears, q ∉ allPts ∧ ∃ c, b.get_cell q = some c ∧
        c.content.contains_ship = false := by
  intro pts
  induction pts with
  | nil =>
    intro nears hok q hq
    unfold collect_placement at hok
    cases hok
    cases hq
  | cons p0 rest ih =>
    intro nears hok q hq
    unfold collect_placement at hok
    cases hcp : check_point b allPts p0 with
    | error e =>
      rw [hcp] at hok
      cases hok
    | ok n0 =>
      rw [hcp] at hok
      cases hcr : collect_placement b allPts rest with
      | error e =>
        rw [hcr] at hok
        cases hok
      | ok nrest =>
        rw [hcr] at hok
        cases hok
        rcases List.mem_append.mp hq with h | h
        · exact check_point_nears b allPts p0 n0 hcp q h
        · exact ih nrest hcr q h

/-- The build-phase invariant: the final `CounterLive` is only established at
the end of each class; until then the structural parts hold and no cell is
exposed. -/
def GoodB (b : Board) : Prop :=
  SepInv b ∧ ShipsCtrValid b ∧ LenCells b ∧ NearbyOk b ∧ AllUnexposed b

theorem unexposedShipCell_water (i : Nat) (c : CellState)
    (h : c.content = CellContent.Water) : unexposedShipCell i c = false := by
  simp [unexposedShipCell, h]

theorem unexposedShipCell_near (i m : Nat) (c : CellState)
    (h : c.content = CellContent.NearShip m) : unexposedShipCell i c = false := by
  simp [unexposedShipCell, h]

theorem unexposedShipCell_not_ship (i : Nat) (c : CellState)
    (h : c.content.contains_ship = false) : unexposedShipCell i c = false := by
  rcases contains_ship_false_cases _ h with hh | ⟨m, hh⟩
  · exact unexposedShipCell_water i c hh
  · exact unexposedShipCell_near i m c hh

theorem unexposedShipCell_set_ship_ne (i N : Nat) (c : CellState) (h : N ≠ i) :
    unexposedShipCell i { c with content := CellContent.Ship N } = false := by
  simp [unexposedShipCell, h]

theorem unexposedShipCell_set_near (i N : Nat) (c : CellState) :
    unexposedShipCell i { c with content := CellContent.NearShip N } = false := by
  simp [unexposedShipCell]

theorem unexposedShipCell_set_ship_self (N : Nat) (c : CellState)
    (h : c.exposed = false) :
    unexposedShipCell N { c with content := CellContent.Ship N } = true := by
  simp [unexposedShipCell, h]

theorem unexposedShipCell_true_elim (i : Nat) (c : CellState)
    (h : unexposedShipCell i c = true) :
    c.content = CellContent.Ship i ∧ c.exposed = false := by
  unfold unexposedShipCell at h
  rcases Bool.and_eq_true_iff.mp h with ⟨h1, h2⟩
  exact ⟨of_decide_eq_true h1, by simpa using h2⟩

theorem place_cellCount_old (bd : BoardBuilder) (counter i : Nat)
    (points nears : List Point) (hi : i ≠ bd.inner.ships.length)
    (hpts : ∀ q ∈ points, ∃ c, bd.inner.get_cell q = some c ∧
      c.content = CellContent.Water)
    (hnr : ∀ q ∈ nears, q ∉ points ∧ ∃ c, bd.inner.get_cell q = some c ∧
      c.content.contains_ship = false) :
    cellCount (place_ship bd counter points nears).inner (unexposedShipCell i) =
      cellCount bd.inner (unexposedShipCell i) := by
  have hcond1 : ∀ q ∈ points, ∀ c,
      (Board.mk (bd.inner.ships ++ [⟨points.length % 256, nears, counter⟩])
        bd.inner.ship_counters bd.inner.state).get_cell q = some c →
      unexposedShipCell i
          { c with content := CellContent.Ship bd.inner.ships.length } =
        unexposedShipCell i c := by
    intro q hq c hc
    obtain ⟨c0, hc0, hw⟩ := hpts q hq
    have hcc : bd.inner.get_cell q = some c := hc
    rw [hcc] at hc0
    injection hc0 with he
    subst he
    rw [unexposedShipCell_set_ship_ne i _ c (fun e => hi e.symm),
      unexposedShipCell_water i c hw]
  have h1 := cellCount_set_content_fold_eq points
    (CellContent.Ship bd.inner.ships.length) (unexposedShipCell i)
    (Board.mk (bd.inner.ships ++ [⟨points.length % 256, nears, counter⟩])
      bd.inner.ship_counters bd.inner.state) hcond1
  have hcond2 : ∀ q ∈ nears, ∀ c,
      (points.foldl
        (fun bb q => bb.set_content q (CellContent.Ship bd.inner.ships.length))
        (Board.mk (bd.inner.ships ++ [⟨points.length % 256, nears, counter⟩])
          bd.inner.ship_counters bd.inner.state)).get_cell q = some c →
      unexposedShipCell i
          { c with content := CellContent.NearShip bd.inner.ships.length } =
        unexposedShipCell i c := by
    intro q hq c hc
    obtain ⟨hqp, c0, hc0, hcs⟩ := hnr q hq
    rw [get_cell_set_content_fold, if_neg hqp] at hc
    have hcc : bd.inner.get_cell q = some c := hc
    rw [hcc] at hc0
    injection hc0 with he
    subst he
    rw [unexposedShipCell_set_near i _ c, unexposedShipCell_not_ship i c hcs]
  have h2 := cellCount_set_content_fold_eq nears
    (CellContent.NearShip bd.inner.ships.length) (unexposedShipCell i)
    (points.foldl
      (fun bb q => bb.set_content q (CellContent.Ship bd.inner.ships.length))
      (Board.mk (bd.inner.ships ++ [⟨points.length % 256, nears, counter⟩])
        bd.inner.ship_counters bd.inner.state)) hcond2
  calc cellCount (place_ship bd counter points nears).inner (unexposedShipCell i)
      = cellCount (points.foldl
          (fun bb q => bb.set_content q (CellContent.Ship bd.inner.ships.length))
          (Board.mk (bd.inner.ships ++
              [Ship.mk (points.length % 256) nears counter])
            bd.inner.ship_counters bd.inner.state)) (unexposedShipCell i) := h2
    _ = cellCount (Board.mk
          (bd.inner.ships ++ [Ship.mk (points.length % 256) nears counter])
          bd.inner.ship_counters bd.inner.state) (unexposedShipCell i) := h1
    _ = cellCount bd.inner (unexposedShipCell i) := rfl

theorem place_cellCount_new (bd : BoardBuilder) (counter : Nat)
    (points nears : List Point) (hnd : points.Nodup)
    (hnoship : ∀ p c, bd.inner.get_cell p = some c →
      c.content ≠ CellContent.Ship bd.inner.ships.length)
    (hpts : ∀ q ∈ points, ∃ c, bd.inner.get_cell q = some c ∧
      c.content = CellContent.Water ∧ c.exposed = false)
    (hnr : ∀ q ∈ nears, q ∉ points) :
    cellCount (place_ship bd counter points nears).inner
      (unexposedShipCell bd.inner.ships.length) = points.length := by
  have h0 : cellCount bd.inner (unexposedShipCell bd.inner.ships.length) = 0 := by
    apply cellCount_zero
    intro p c hc
    by_contra hne
    have ht := unexposedShipCell_true_elim _ c (by simpa using hne)
    exact hnoship p c hc ht.1
  have hcond1 : ∀ q ∈ points, ∃ c,
      (Board.mk (bd.inner.ships ++ [⟨points.length % 256, nears, counter⟩])
        bd.inner.ship_counters bd.inner.state).get_cell q = some c ∧
      unexposedShipCell bd.inner.ships.length c = false ∧
      unexposedShipCell bd.inner.ships.length
        { c with content := CellContent.Ship bd.inner.ships.length } = true := by
    intro q hq
    obtain ⟨c, hc, hw, hexp⟩ := hpts q hq
    exact ⟨c, hc, unexposedShipCell_water _ c hw,
      unexposedShipCell_set_ship_self _ c hexp⟩
  have h1 := cellCount_set_content_fold_add points
    (CellContent.Ship bd.inner.ships.length)
    (unexposedShipCell bd.inner.ships.length)
    (Board.mk (bd.inner.ships ++ [⟨points.length % 256, nears, counter⟩])
      bd.inner.ship_counters bd.inner.state) hnd hcond1
  have hcond2 : ∀ q ∈ nears, ∀ c,
      (points.foldl
        (fun bb q => bb.set_content q (CellContent.Ship bd.inner.ships.length))
        (Board.mk (bd.inner.ships ++ [⟨points.length % 256, nears, counter⟩])
          bd.inner.ship_counters bd.inner.state)).get_cell q = some c →
      unexposedShipCell bd.inner.ships.length
          { c with content := CellContent.NearShip bd.inner.ships.length } =
        unexposedShipCell bd.inner.ships.length c := by
    intro q hq c hc
    rw [get_cell_set_content_fold, if_neg (hnr q hq)] at hc
    have hcc : bd.inner.get_cell q = some c := hc
    have hfalse : unexposedShipCell bd.inner.ships.length c = false := by
      by_contra hne
      have ht := unexposedShipCell_true_elim _ c (by simpa using hne)
      exact hnoship q c hcc ht.1
    rw [unexposedShipCell_set_near _ _ c, hfalse]
  have h2 := cellCount_set_content_fold_eq nears
    (CellContent.NearShip bd.inner.ships.length)
    (unexposedShipCell bd.inner.ships.length)
    (points.foldl
      (fun bb q => bb.set_content q (CellContent.Ship bd.inner.ships.length))
      (Board.mk (bd.inner.ships ++ [⟨points.length % 256, nears, counter⟩])
        bd.inner.ship_counters bd.inner.state)) hcond2
  calc cellCount (place_ship bd counter points nears).inner
        (unexposedShipCell bd.inner.ships.length)
      = cellCount (points.foldl
          (fun bb q => bb.set_content q (CellContent.Ship bd.inner.ships.length))
          (Board.mk (bd.inner.ships ++
              [Ship.mk (points.length % 256) nears counter])
            bd.inner.ship_counters bd.inner.state))
          (unexposedShipCell bd.inner.ships.length) := h2
    _ = cellCount (Board.mk
          (bd.inner.ships ++ [Ship.mk (points.length % 256) nears counter])
          bd.inner.ship_counters bd.inner.state)
          (unexposedShipCell bd.inner.ships.length) + points.length := h1
    _ = points.length := by
        rw [show cellCount (Board.mk
            (bd.inner.ships ++ [Ship.mk (points.length % 256) nears counter])
            bd.inner.ship_counters bd.inner.state)
            (unexposedShipCell bd.inner.ships.length) =
          cellCount bd.inner (unexposedShipCell bd.inner.ships.length) from rfl,
          h0]
        omega

theorem add_ship_instance_goodB (bd bd' : BoardBuilder) (counter : Nat)
    (points : List Point) (hg : GoodB bd.inner)
    (hctr : counter < bd.inner.ship_counters.length)
    (hnd : points.Nodup) (hlen255 : points.length ≤ 255)
    (hok : bd.add_ship_instance counter points = .ok bd') :
    GoodB bd'.inner ∧
    (∃ nears, bd'.inner.ships = bd.inner.ships ++
      [Ship.mk (points.length % 256) nears counter]) ∧
    bd'.inner.ship_counters = bd.inner.ship_counters ∧
    bd'.bounds = bd.bounds ∧
    points ≠ [] := by
  obtain ⟨hsep, hscv, hlc, hnb, hunexp⟩ := hg
  have hsep' := add_ship_instance_sep bd bd' counter points hsep hok
  unfold BoardBuilder.add_ship_instance at hok
  by_cases hnil : points = []
  · rw [if_pos hnil] at hok
    cases hok
  · rw [if_neg hnil] at hok
    cases hcol : collect_placement bd.inner points points with
    | error e =>
      rw [hcol] at hok
      cases hok
    | ok nears =>
      rw [hcol] at hok
      have hbd'eq : (Except.ok (place_ship bd counter points nears) :
          Except ShipAddError BoardBuilder) = .ok bd' := hok
      cases hbd'eq
      have hchecks := collect_placement_ok bd.inner points points nears hcol
      have hnears := collect_placement_nears bd.inner points points nears hcol
      have hpts_cells : ∀ q ∈ points, ∃ c, bd.inner.get_cell q = some c ∧
          c.content = CellContent.Water ∧ c.exposed = false := by
        intro q hq
        obtain ⟨⟨c, hc, hcoln⟩, _⟩ := hchecks q hq
        exact ⟨c, hc, get_collision_none_eq_water _ hcoln, hunexp q c hc⟩
      have hnoshipN : ∀ p c, bd.inner.get_cell p = some c →
          c.content ≠ CellContent.Ship bd.inner.ships.length := by
        intro p c hc hcont
        have := hsep.2.1 p _ ⟨c, hc, hcont⟩
        omega
      refine ⟨⟨hsep', ?_, ?_, ?_, ?_⟩,
        ⟨nears, place_ship_ships bd counter points nears⟩,
        place_ship_counters bd counter points nears, rfl, hnil⟩
      · -- ShipsCtrValid
        intro i s hs
        rw [place_ship_ships] at hs
        rw [show (place_ship bd counter points nears).inner.ship_counters =
          bd.inner.ship_counters from place_ship_counters bd counter points nears]
        rcases get?_append_singleton_cases _ _ _ _ hs with ⟨_, hold⟩ | ⟨_, rfl⟩
        · exact hscv i s hold
        · exact hctr
      · -- LenCells
        intro i s hs
        rw [place_ship_ships] at hs
        rcases get?_append_singleton_cases _ _ _ _ hs with ⟨hilt, hold⟩ | ⟨hieq, rfl⟩
        · rw [place_cellCount_old bd counter i points nears (by omega)
            (fun q hq => by
              obtain ⟨c, h1, h2, _⟩ := hpts_cells q hq
              exact ⟨c, h1, h2⟩)
            (fun q hq => by
              obtain ⟨h1, c, h2, h3⟩ := hnears q hq
              exact ⟨h1, c, h2, h3⟩)]
          exact hlc i s hold
        · subst hieq
          rw [place_cellCount_new bd counter points nears hnd hnoshipN hpts_cells
            (fun q hq => (hnears q hq).1)]
          show points.length % 256 = points.length
          omega
      · -- NearbyOk
        intro i s hs
        rw [place_ship_ships] at hs
        rcases get?_append_singleton_cases _ _ _ _ hs with ⟨hilt, hold⟩ | ⟨hieq, rfl⟩
        · intro q hq
          obtain ⟨c, hc, m, hcm⟩ := hnb i s hold q hq
          rw [place_ship_get_cell]
          by_cases hn : q ∈ nears
          · rw [if_pos hn, hc]
            exact ⟨_, rfl, bd.inner.ships.length, rfl⟩
          · by_cases hp : q ∈ points
            · obtain ⟨c0, hc0, hw, _⟩ := hpts_cells q hp
              rw [hc] at hc0
              injection hc0 with he
              subst he
              rw [hcm] at hw
              cases hw
            · rw [if_neg hn, if_neg hp]
              exact ⟨c, hc, m, hcm⟩
        · intro q hq
          obtain ⟨_, c, hc, _⟩ := hnears q hq
          rw [place_ship_get_cell, if_pos hq, hc]
          exact ⟨_, rfl, bd.inner.ships.length, rfl⟩
      · -- AllUnexposed
        intro p c hc
        rw [place_ship_get_cell] at hc
        by_cases hn : p ∈ nears
        · rw [if_pos hn] at hc
          cases ho : bd.inner.get_cell p with
          | none =>
            rw [ho] at hc
            cases hc
          | some c0 =>
            rw [ho] at hc
            simp only [Option.map_some'] at hc
            cases hc
            exact hunexp p c0 ho
        · rw [if_neg hn] at hc
          by_cases hp : p ∈ points
          · rw [if_pos hp] at hc
            cases ho : bd.inner.get_cell p with
            | none =>
              rw [ho] at hc
              cases hc
            | some c0 =>
              rw [ho] at hc
              simp only [Option.map_some'] at hc
              cases hc
              exact hunexp p c0 ho
          · rw [if_neg hp] at hc
            exact hunexp p c hc

theorem nodup_map_range_x (sx sy len : Nat) :
    ((List.range len).map (fun i => Point.mk (sx + i) sy)).Nodup := by
  refine List.Nodup.map ?_ (List.nodup_range len)
  intro i j hij
  simp only [Point.mk.injEq] at hij
  omega

theorem nodup_map_range_y (sx sy len : Nat) :
    ((List.range len).map (fun i => Point.mk sx (sy + i))).Nodup := by
  refine List.Nodup.map ?_ (List.nodup_range len)
  intro i j hij
  simp only [Point.mk.injEq] at hij
  omega

theorem ship_points_for_nodup (bounds : Point) (len : Nat)
    (a : Bool × Nat × Nat) : (ship_points_for bounds len a).Nodup := by
  unfold ship_points_for
  cases ha : a.1 with
  | true =>
    simp only [ha, if_true]
    exact nodup_map_range_x _ _ len
  | false =>
    simp only [ha, Bool.false_eq_true, if_false]
    exact nodup_map_range_y _ _ len

theorem ship_points_for_length (bounds : Point) (len : Nat)
    (a : Bool × Nat × Nat) : (ship_points_for bounds len a).length = len := by
  unfold ship_points_for
  simp

theorem countP_append_singleton (p : α → Bool) (l : List α) (a : α) :
    (l ++ [a]).countP p = l.countP p + (if p a then 1 else 0) := by
  rw [List.countP_append]
  simp [List.countP_cons]

theorem add_ship_random_goodB (bd bd' : BoardBuilder) (len counter : Nat)
    (oracle : Nat → Bool × Nat × Nat) (hg : GoodB bd.inner)
    (hctr : counter < bd.inner.ship_counters.length) (hlen : len ≤ 255)
    (hok : bd.add_ship_random len counter oracle = .ok bd') :
    GoodB bd'.inner ∧
    bd'.inner.ship_counters = bd.inner.ship_counters ∧
    bd'.bounds = bd.bounds ∧
    (∀ k, liveCount bd'.inner k =
      liveCount bd.inner k + (if k = counter then 1 else 0)) ∧
    (∀ k, classCount bd'.inner k =
      classCount bd.inner k + (if k = counter then 1 else 0)) := by
  have hiter := (add_ship_random_aux_ok_iff bd len counter oracle 1000 0 bd').mp hok
  simp only [Nat.zero_add] at hiter
  obtain ⟨j, hj, hatt, _⟩ := hiter
  unfold attemptAt at hatt
  have hnd := ship_points_for_nodup bd.bounds len (oracle j)
  have hlenp := ship_points_for_length bd.bounds len (oracle j)
  obtain ⟨hg', ⟨nears, hships⟩, hcnt, hbnd, hnenil⟩ :=
    add_ship_instance_goodB bd bd' counter _ hg hctr hnd
      (by rw [hlenp]; exact hlen) hatt
  have hlen1 : 1 ≤ len := by
    by_contra h0
    have hz : len = 0 := by omega
    apply hnenil
    rw [← List.length_eq_zero, hlenp, hz]
  have hmod : (ship_points_for bd.bounds len (oracle j)).length % 256 = len := by
    rw [hlenp]
    omega
  refine ⟨hg', hcnt, hbnd, ?_, ?_⟩
  · intro k
    show bd'.inner.ships.countP (livePred k) = _
    rw [hships, countP_append_singleton]
    have hlive : livePred k
        (Ship.mk ((ship_points_for bd.bounds len (oracle j)).length % 256)
          nears counter) = decide (counter = k) := by
      unfold livePred
      rw [hmod]
      simp only
      by_cases hk : counter = k
      · simp [hk, show len ≠ 0 from by omega]
      · simp [hk]
    rw [hlive]
    by_cases hk : k = counter
    · subst hk
      simp
      rfl
    · rw [if_neg hk, if_neg (by simpa using fun e => hk e.symm)]
      rfl
  · intro k
    show bd'.inner.ships.countP (classPred k) = _
    rw [hships, countP_append_singleton]
    have hclass : classPred k
        (Ship.mk ((ship_points_for bd.bounds len (oracle j)).length % 256)
          nears counter) = decide (counter = k) := rfl
    rw [hclass]
    by_cases hk : k = counter
    · subst hk
      simp
      rfl
    · rw [if_neg hk, if_neg (by simpa using fun e => hk e.symm)]
      rfl

theorem push_counter_goodB (bd : BoardBuilder) (c : ShipCounter)
    (hg : GoodB bd.inner) : GoodB (bd.push_counter c).inner := by
  obtain ⟨hsep, hscv, hlc, hnb, hunexp⟩ := hg
  refine ⟨hsep, ?_, hlc, hnb, hunexp⟩
  intro i s hs
  have := hscv i s hs
  show s.counter < (bd.inner.ship_counters ++ [c]).length
  rw [List.length_append]
  omega

theorem counts_out_of_range (b : Board) (hscv : ShipsCtrValid b) (k : Nat)
    (hk : b.ship_counters.length ≤ k) :
    liveCount b k = 0 ∧ classCount b k = 0 := by
  constructor
  · unfold liveCount
    rw [List.countP_eq_zero]
    intro s hs
    obtain ⟨i, hi⟩ := List.get?_of_mem hs
    have := hscv i s hi
    simp only [livePred, Bool.and_eq_true, decide_eq_true_eq]
    rintro ⟨h1, _⟩
    omega
  · unfold classCount
    rw [List.countP_eq_zero]
    intro s hs
    obtain ⟨i, hi⟩ := List.get?_of_mem hs
    have := hscv i s hi
    simp only [classPred, decide_eq_true_eq]
    intro h1
    omega

theorem add_instances_goodB (oracle : Nat → Nat → Bool × Nat × Nat)
    (len counter : Nat) (hlen : len ≤ 255) :
    ∀ (n inst : Nat) (bd bd' : BoardBuilder), GoodB bd.inner →
      counter < bd.inner.ship_counters.length →
      add_instances oracle len counter n inst bd = .ok bd' →
      GoodB bd'.inner ∧
      bd'.inner.ship_counters = bd.inner.ship_counters ∧
      (∀ k, liveCount bd'.inner k =
        liveCount bd.inner k + (if k = counter then n else 0)) ∧
      (∀ k, classCount bd'.inner k =
        classCount bd.inner k + (if k = counter then n else 0)) := by
  intro n
  induction n with
  | zero =>
    intro inst bd bd' hg hctr hok
    unfold add_instances at hok
    cases hok
    exact ⟨hg, rfl, fun k => by simp, fun k => by simp⟩
  | succ n ih =>
    intro inst bd bd' hg hctr hok
    unfold add_instances at hok
    cases hrnd : bd.add_ship_random len counter (oracle inst) with
    | error e =>
      rw [hrnd] at hok
      cases hok
    | ok bdm =>
      rw [hrnd] at hok
      obtain ⟨hgm, hcntm, _, hlivem, hclassm⟩ :=
        add_ship_random_goodB bd bdm len counter (oracle inst) hg hctr hlen hrnd
      obtain ⟨hg', hcnt', hlive', hclass'⟩ :=
        ih (inst + 1) bdm bd' hgm (by rw [hcntm]; exact hctr) hok
      refine ⟨hg', by rw [hcnt', hcntm], ?_, ?_⟩
      · intro k
        rw [hlive' k, hlivem k]
        by_cases hk : k = counter <;> simp [hk] <;> omega
      · intro k
        rw [hclass' k, hclassm k]
        by_cases hk : k = counter <;> simp [hk] <;> omega

theorem random_build_good (oracle : Nat → Nat → Nat → Bool × Nat × Nat) :
    ∀ (defs : List ShipDefinition) (k : Nat) (bd : BoardBuilder) (b : Board),
      (∀ d ∈ defs, d.length ≤ 255 ∧ d.count ≤ 255) →
      GoodB bd.inner → CounterLive bd.inner →
      random_build_aux oracle defs k bd = .ok b →
      Good b := by
  intro defs
  induction defs with
  | nil =>
    intro k bd b _ hg hcl hok
    unfold random_build_aux at hok
    cases hok
    exact ⟨hg.1, hg.2.1, hg.2.2.1, hg.2.2.2.1, hcl⟩
  | cons d rest ih =>
    intro k bd b hwf hg hcl hok
    unfold random_build_aux at hok
    cases hinst : add_instances (oracle k) d.length
        bd.inner.ship_counters.length d.count 0
        (bd.push_counter d.to_counter) with
    | error e =>
      rw [hinst] at hok
      cases hok
    | ok bd2 =>
      rw [hinst] at hok
      have hd := hwf d (List.mem_cons_self d rest)
      have hg1 : GoodB (bd.push_counter d.to_counter).inner :=
        push_counter_goodB bd d.to_counter hg
      have hctr1 : bd.inner.ship_counters.length <
          (bd.push_counter d.to_counter).inner.ship_counters.length := by
        show _ < (bd.inner.ship_counters ++ [d.to_counter]).length
        simp
      obtain ⟨hg2, hcnt2, hlive2, hclass2⟩ :=
        add_instances_goodB (oracle k) d.length bd.inner.ship_counters.length
          hd.1 d.count 0 (bd.push_counter d.to_counter) bd2 hg1 hctr1 hinst
      have hpushlive : ∀ k', liveCount (bd.push_counter d.to_counter).inner k' =
          liveCount bd.inner k' := fun _ => rfl
      have hpushclass : ∀ k', classCount (bd.push_counter d.to_counter).inner k' =
          classCount bd.inner k' := fun _ => rfl
      have hzero := counts_out_of_range bd.inner hg.2.1
        bd.inner.ship_counters.length (Nat.le_refl _)
      have hcl2 : CounterLive bd2.inner := by
        intro k' c' hc'
        rw [hcnt2] at hc'
        have hc'' : (bd.inner.ship_counters ++ [d.to_counter]).get? k' =
            some c' := hc'
        rcases get?_append_singleton_cases _ _ _ _ hc'' with ⟨hlt, hold⟩ |
          ⟨heq, rfl⟩
        · obtain ⟨hr, ht, h255⟩ := hcl k' c' hold
          have hk'ne : k' ≠ bd.inner.ship_counters.length := by omega
          refine ⟨?_, ?_, h255⟩
          · rw [hlive2 k', if_neg hk'ne, hpushlive k']
            omega
          · rw [hclass2 k', if_neg hk'ne, hpushclass k']
            omega
        · subst heq
          refine ⟨?_, ?_, ?_⟩
          · show d.count = liveCount bd2.inner bd.inner.ship_counters.length
            rw [hlive2 _, if_pos rfl, hpushlive _]
            omega
          · show d.count = classCount bd2.inner bd.inner.ship_counters.length
            rw [hclass2 _, if_pos rfl, hpushclass _]
            omega
          · show d.count ≤ 255
            exact hd.2
      exact ih (k + 1) bd2 b (fun d' hd' => hwf d' (List.mem_cons_of_mem d hd'))
        hg2 hcl2 hok

theorem bounds_small_expose_fold (L : List Point) (b : Board)
    (hb : BoundsSmall b) :
    BoundsSmall (L.foldl (fun bb q => bb.expose_cell q) b) := by
  induction L generalizing b with
  | nil => exact hb
  | cons r rest ih =>
    rw [List.foldl_cons]
    exact ih _ (bounds_small_cell_modify b r _ hb)

theorem countP_le_of_imp (p q : α → Bool) (l : List α)
    (h : ∀ a ∈ l, p a = true → q a = true) : l.countP p ≤ l.countP q := by
  induction l with
  | nil => simp
  | cons x xs ih =>
    simp only [List.countP_cons]
    have h1 := ih (fun a ha => h a (List.mem_cons_of_mem x ha))
    by_cases hp : p x = true
    · rw [if_pos hp, if_pos (h x (List.mem_cons_self x xs) hp)]
      omega
    · rw [if_neg hp]
      have : (if q x = true then 1 else 0) ≥ 0 := by omega
      omega

theorem get_ship_some_eq (cc : CellContent) (i : Nat)
    (h : cc.get_ship = some i) : cc = CellContent.Ship i := by
  cases cc with
  | Water => cases h
  | NearShip m => cases h
  | Ship m =>
    injection h with h'
    rw [h']

theorem cellShip_expose_iff (b : Board) (p q : Point) (j : Nat) :
    cellShip (b.expose_cell p) q j ↔ cellShip b q j := by
  constructor
  · rintro ⟨c, hc, hcont⟩
    rw [get_cell_expose] at hc
    by_cases hq : q = p
    · rw [if_pos hq] at hc
      cases ho : b.get_cell q with
      | none =>
        rw [ho] at hc
        cases hc
      | some c0 =>
        rw [ho] at hc
        simp only [Option.map_some'] at hc
        cases hc
        exact ⟨c0, ho, hcont⟩
    · rw [if_neg hq] at hc
      exact ⟨c, hc, hcont⟩
  · rintro ⟨c, hc, hcont⟩
    by_cases hq : q = p
    · refine ⟨{ c with exposed := true }, ?_, hcont⟩
      rw [get_cell_expose, if_pos hq, hc]
      rfl
    · refine ⟨c, ?_, hcont⟩
      rw [get_cell_expose, if_neg hq]
      exact hc

theorem sep_inv_expose (b : Board) (p : Point) (hs : SepInv b) :
    SepInv (b.expose_cell p) := by
  obtain ⟨hbs, hids, hsep⟩ := hs
  refine ⟨bounds_small_cell_modify b p _ hbs, ?_, ?_⟩
  · intro q j hq
    have := hids q j ((cellShip_expose_iff b p q j).mp hq)
    show j < b.ships.length
    exact this
  · intro q r i j h1 h2 hij
    exact hsep q r i j ((cellShip_expose_iff b p q i).mp h1)
      ((cellShip_expose_iff b p r j).mp h2) hij

theorem cellShip_expose_fold_iff (L : List Point) (b : Board) (q : Point)
    (j : Nat) :
    cellShip (L.foldl (fun bb r => bb.expose_cell r) b) q j ↔ cellShip b q j := by
  induction L generalizing b with
  | nil => exact Iff.rfl
  | cons r rest ih =>
    rw [List.foldl_cons]
    exact (ih (b.expose_cell r)).trans (cellShip_expose_iff b r q j)

theorem get_ship_none_not_ship (cc : CellContent) (h : cc.get_ship = none) :
    cc.contains_ship = false := by
  cases cc with
  | Water => rfl
  | NearShip m => rfl
  | Ship m => cases h

theorem good_after_expose (b : Board) (p : Point) (cell : CellState)
    (hg : Good b) (hc : b.get_cell p = some cell)
    (hgs : cell.content.get_ship = none) : Good (b.expose_cell p) := by
  obtain ⟨hsep, hscv, hlc, hnb, hcl⟩ := hg
  have hnotship := get_ship_none_not_ship cell.content hgs
  refine ⟨sep_inv_expose b p hsep, hscv, ?_, ?_, hcl⟩
  · intro i s hs
    have hbef : unexposedShipCell i cell = false :=
      unexposedShipCell_not_ship i cell hnotship
    have haft : unexposedShipCell i { cell with exposed := true } = false :=
      unexposedShipCell_not_ship i _ hnotship
    have hm := cellCount_cell_modify b p (fun c => { c with exposed := true })
      (unexposedShipCell i) cell hc
    rw [hbef, haft] at hm
    have hcc : cellCount (b.expose_cell p) (unexposedShipCell i) =
        cellCount (b.cell_modify p (fun c => { c with exposed := true }))
          (unexposedShipCell i) := rfl
    rw [hcc]
    have := hlc i s hs
    omega
  · intro i s hs q hq
    obtain ⟨c, hcq, m, hcm⟩ := hnb i s hs q hq
    rw [get_cell_expose]
    by_cases hqp : q = p
    · rw [if_pos hqp, hcq]
      exact ⟨_, rfl, m, hcm⟩
    · rw [if_neg hqp]
      exact ⟨c, hcq, m, hcm⟩

theorem hit_shape (b : Board) (p : Point) :
    b.hit p = (.error .OutOfBounds, b) ∨
    b.hit p = (.error .AlreadyHit, b) ∨
    ∃ cell, b.get_cell p = some cell ∧ cell.exposed = false ∧
      ((cell.content.get_ship = none ∧
        b.hit p = (.ok none, b.expose_cell p)) ∨
      (∃ i0, cell.content.get_ship = some i0 ∧
        b.hit p = (.ok
          (if (match ((b.expose_cell p).ship_hit i0).ships.get? i0 with
              | some s => s.has_sank
              | none => false) = true
            then some i0 else none),
          (b.expose_cell p).ship_hit i0))) := by
  unfold Board.hit
  cases hc : b.get_cell p with
  | none => exact Or.inl rfl
  | some cell =>
    dsimp only
    by_cases hexp : cell.exposed = true
    · rw [if_pos hexp]
      exact Or.inr (Or.inl rfl)
    · rw [if_neg hexp]
      refine Or.inr (Or.inr ⟨cell, rfl, by simpa using hexp, ?_⟩)
      cases hgs : cell.content.get_ship with
      | none => exact Or.inl ⟨rfl, rfl⟩
      | some i0 => exact Or.inr ⟨i0, rfl, rfl⟩

theorem sep_inv_ship_modify (X : Board) (i0 : Nat) (f : Ship → Ship)
    (h : SepInv X) : SepInv (X.ship_modify i0 f) := by
  obtain ⟨hbs, hids, hsep⟩ := h
  refine ⟨hbs, ?_, hsep⟩
  intro q j hq
  have hlt := hids q j hq
  show j < (modifyAt f i0 X.ships).length
  rw [length_modifyAt]
  exact hlt

theorem sep_inv_expose_fold (L : List Point) :
    ∀ b : Board, SepInv b →
      SepInv (L.foldl (fun bb r => bb.expose_cell r) b) := by
  induction L with
  | nil => exact fun b h => h
  | cons r rest ih =>
    intro b h
    rw [List.foldl_cons]
    exact ih _ (sep_inv_expose b r h)

theorem ship_nosink_core (X : Board) (i0 : Nat) (s : Ship) (B2 : Board)
    (hsx : X.ships.get? i0 = some s)
    (hsep : SepInv X) (hscv : ShipsCtrValid X) (hnb : NearbyOk X)
    (hcl : CounterLive X)
    (hlen_i0 : s.length = cellCount X (unexposedShipCell i0) + 1)
    (hlen_j : ∀ j s', X.ships.get? j = some s' → j ≠ i0 →
      s'.length = cellCount X (unexposedShipCell j))
    (h2 : 2 ≤ s.length)
    (hB2 : B2 = X.ship_modify i0 (fun sh => { sh with length := s.length - 1 })) :
    Good B2 ∧
    B2.ships.get? i0 = some { s with length := s.length - 1 } ∧
    B2.ship_counters = X.ship_counters := by
  have hships2 : B2.ships =
      modifyAt (fun sh => { sh with length := s.length - 1 }) i0 X.ships := by
    rw [hB2]
    rfl
  have hctrs : B2.ship_counters = X.ship_counters := by
    rw [hB2]
    rfl
  have hcnt : ∀ pr : CellState → Bool, cellCount B2 pr = cellCount X pr := by
    intro pr
    rw [hB2]
    rfl
  have hcell : ∀ q, B2.get_cell q = X.get_cell q := by
    intro q
    rw [hB2]
    rfl
  have hnears := hnb i0 s hsx
  refine ⟨⟨?_, ?_, ?_, ?_, ?_⟩, ?_, hctrs⟩
  · rw [hB2]
    exact sep_inv_ship_modify X i0 _ hsep
  · intro j s' hs'
    rw [hships2, get?_modifyAt] at hs'
    show s'.counter < B2.ship_counters.length
    rw [hctrs]
    by_cases hj : j = i0
    · rw [if_pos hj] at hs'
      subst hj
      rw [hsx] at hs'
      simp only [Option.map_some'] at hs'
      injection hs' with he
      subst he
      exact hscv j s hsx
    · rw [if_neg hj] at hs'
      exact hscv j s' hs'
  · intro j s' hs'
    rw [hships2, get?_modifyAt] at hs'
    rw [hcnt]
    by_cases hj : j = i0
    · rw [if_pos hj] at hs'
      subst hj
      rw [hsx] at hs'
      simp only [Option.map_some'] at hs'
      injection hs' with he
      subst he
      show s.length - 1 = cellCount X (unexposedShipCell j)
      omega
    · rw [if_neg hj] at hs'
      exact hlen_j j s' hs' hj
  · intro j s' hs' q hq
    rw [hships2, get?_modifyAt] at hs'
    rw [hcell]
    by_cases hj : j = i0
    · rw [if_pos hj] at hs'
      subst hj
      rw [hsx] at hs'
      simp only [Option.map_some'] at hs'
      injection hs' with he
      subst he
      exact hnears q hq
    · rw [if_neg hj] at hs'
      exact hnb j s' hs' q hq
  · intro k c' hk'
    rw [hctrs] at hk'
    obtain ⟨hrem', htot', h255'⟩ := hcl k c' hk'
    have hlive_eq := countP_modifyAt (livePred k)
      (fun sh => { sh with length := s.length - 1 }) i0 X.ships s hsx
    have hclass_eq := countP_modifyAt (classPred k)
      (fun sh => { sh with length := s.length - 1 }) i0 X.ships s hsx
    have hclsf : classPred k { s with length := s.length - 1 } = classPred k s := rfl
    rw [hclsf] at hclass_eq
    have hlvf : livePred k { s with length := s.length - 1 } = livePred k s := by
      show (decide (s.counter = k) && decide (s.length - 1 ≠ 0)) =
        (decide (s.counter = k) && decide (s.length ≠ 0))
      rw [decide_eq_true (by omega : s.length - 1 ≠ 0),
        decide_eq_true (by omega : s.length ≠ 0)]
    rw [hlvf] at hlive_eq
    have hliveB2 : liveCount B2 k = liveCount X k := by
      show B2.ships.countP (livePred k) = X.ships.countP (livePred k)
      rw [hships2]
      omega
    have hclassB2 : classCount B2 k = classCount X k := by
      show B2.ships.countP (classPred k) = X.ships.countP (classPred k)
      rw [hships2]
      omega
    exact ⟨by rw [hliveB2]; exact hrem', by rw [hclassB2]; exact htot', h255'⟩
  · rw [hships2, get?_modifyAt, if_pos rfl, hsx]
    rfl

theorem ship_sink_core (X : Board) (i0 : Nat) (s : Ship) (c : ShipCounter)
    (B2 : Board)
    (hsx : X.ships.get? i0 = some s)
    (hsep : SepInv X) (hscv : ShipsCtrValid X) (hnb : NearbyOk X)
    (hcl : CounterLive X)
    (hlen_i0 : s.length = cellCount X (unexposedShipCell i0) + 1)
    (hlen_j : ∀ j s', X.ships.get? j = some s' → j ≠ i0 →
      s'.length = cellCount X (unexposedShipCell j))
    (h1 : s.length = 1)
    (hcg : X.ship_counters.get? s.counter = some c)
    (hB2 : B2 = s.nearby_cells.foldl (fun bb q => bb.expose_cell q)
      ((X.ship_modify i0 (fun sh => { sh with length := s.length - 1 })).counter_modify
        s.counter ShipCounter.decrease)) :
    Good B2 ∧
    B2.ships.get? i0 = some { s with length := s.length - 1 } ∧
    0 < c.remaining ∧ c.remaining ≤ 255 ∧
    B2.ship_counters.get? s.counter = some { c with remaining := c.remaining - 1 } ∧
    (∀ k, k ≠ s.counter → B2.ship_counters.get? k = X.ship_counters.get? k) := by
  obtain ⟨hrem, htot, h255⟩ := hcl s.counter c hcg
  have hlivepos : 0 < liveCount X s.counter :=
    countP_pos_of_get? (livePred s.counter) X.ships i0 s hsx
      (by simp [livePred, h1])
  have hlive_le : liveCount X s.counter ≤ classCount X s.counter :=
    countP_le_of_imp _ _ X.ships (by
      intro a _ hp
      simp only [livePred, Bool.and_eq_true, decide_eq_true_eq] at hp
      simp [classPred, hp.1])
  have hrpos : 0 < c.remaining := by omega
  have hr255 : c.remaining ≤ 255 := by omega
  have hctrs : B2.ship_counters =
      modifyAt ShipCounter.decrease s.counter X.ship_counters := by
    rw [hB2, expose_fold_counters]
    rfl
  have hships2 : B2.ships =
      modifyAt (fun sh => { sh with length := s.length - 1 }) i0 X.ships := by
    rw [hB2, expose_fold_ships]
    rfl
  have hcellB2 : ∀ q, B2.get_cell q =
      if q ∈ s.nearby_cells then
        (X.get_cell q).map (fun cc => { cc with exposed := true })
      else X.get_cell q := by
    intro q
    rw [hB2, get_cell_expose_fold]
    rfl
  have hnears := hnb i0 s hsx
  have hprnear : ∀ j : Nat, ∀ q ∈ s.nearby_cells, ∀ cc : CellState,
      ((X.ship_modify i0 (fun sh => { sh with length := s.length - 1 })).counter_modify
        s.counter ShipCounter.decrease).get_cell q = some cc →
      unexposedShipCell j { cc with exposed := true } = unexposedShipCell j cc := by
    intro j q hq cc hcc
    obtain ⟨c0, hc0, m, hm⟩ := hnears q hq
    have hccX : X.get_cell q = some cc := hcc
    rw [hc0] at hccX
    injection hccX with he
    subst he
    rw [unexposedShipCell_near j m { c0 with exposed := true } hm,
      unexposedShipCell_near j m c0 hm]
  have hcntB2 : ∀ j : Nat, cellCount B2 (unexposedShipCell j) =
      cellCount X (unexposedShipCell j) := by
    intro j
    have hfold := cellCount_expose_fold_eq s.nearby_cells (unexposedShipCell j)
      ((X.ship_modify i0 (fun sh => { sh with length := s.length - 1 })).counter_modify
        s.counter ShipCounter.decrease) (hprnear j)
    rw [hB2]
    exact hfold
  refine ⟨⟨?_, ?_, ?_, ?_, ?_⟩, ?_, hrpos, hr255, ?_, ?_⟩
  · rw [hB2]
    exact sep_inv_expose_fold s.nearby_cells _
      (sep_inv_ship_modify X i0 _ hsep)
  · intro j s' hs'
    rw [hships2, get?_modifyAt] at hs'
    show s'.counter < B2.ship_counters.length
    rw [hctrs, length_modifyAt]
    by_cases hj : j = i0
    · rw [if_pos hj] at hs'
      subst hj
      rw [hsx] at hs'
      simp only [Option.map_some'] at hs'
      injection hs' with he
      subst he
      exact hscv j s hsx
    · rw [if_neg hj] at hs'
      exact hscv j s' hs'
  · intro j s' hs'
    rw [hships2, get?_modifyAt] at hs'
    rw [hcntB2]
    by_cases hj : j = i0
    · rw [if_pos hj] at hs'
      subst hj
      rw [hsx] at hs'
      simp only [Option.map_some'] at hs'
      injection hs' with he
      subst he
      show s.length - 1 = cellCount X (unexposedShipCell j)
      omega
    · rw [if_neg hj] at hs'
      exact hlen_j j s' hs' hj
  · intro j s' hs' q hq
    rw [hships2, get?_modifyAt] at hs'
    have hxfact : ∃ cc, X.get_cell q = some cc ∧
        ∃ m, cc.content = CellContent.NearShip m := by
      by_cases hj : j = i0
      · rw [if_pos hj] at hs'
        subst hj
        rw [hsx] at hs'
        simp only [Option.map_some'] at hs'
        injection hs' with he
        subst he
        exact hnears q hq
      · rw [if_neg hj] at hs'
        exact hnb j s' hs' q hq
    obtain ⟨cc, hccq, m, hm⟩ := hxfact
    rw [hcellB2 q]
    by_cases hmem : q ∈ s.nearby_cells
    · rw [if_pos hmem, hccq]
      exact ⟨_, rfl, m, hm⟩
    · rw [if_neg hmem]
      exact ⟨cc, hccq, m, hm⟩
  · intro k c' hk'
    rw [hctrs, get?_modifyAt] at hk'
    have hlive_eq := countP_modifyAt (livePred k)
      (fun sh => { sh with length := s.length - 1 }) i0 X.ships s hsx
    have hclass_eq := countP_modifyAt (classPred k)
      (fun sh => { sh with length := s.length - 1 }) i0 X.ships s hsx
    have hclsf : classPred k { s with length := s.length - 1 } = classPred k s := rfl
    rw [hclsf] at hclass_eq
    have hclassB2 : classCount B2 k = classCount X k := by
      show B2.ships.countP (classPred k) = X.ships.countP (classPred k)
      rw [hships2]
      omega
    have hlivefs : livePred k { s with length := s.length - 1 } = false := by
      show (decide (s.counter = k) && decide (s.length - 1 ≠ 0)) = false
      rw [decide_eq_false (by omega : ¬ s.length - 1 ≠ 0)]
      simp
    rw [hlivefs] at hlive_eq
    simp only [Bool.false_eq_true, if_false] at hlive_eq
    by_cases hk : k = s.counter
    · subst hk
      rw [if_pos rfl, hcg] at hk'
      simp only [Option.map_some'] at hk'
      injection hk' with he
      have hlives : livePred s.counter s = true := by
        show (decide (s.counter = s.counter) && decide (s.length ≠ 0)) = true
        rw [decide_eq_true (rfl : s.counter = s.counter),
          decide_eq_true (by omega : s.length ≠ 0)]
        rfl
      rw [hlives] at hlive_eq
      have htt : (if (true : Bool) = true then (1 : Nat) else 0) = 1 := rfl
      rw [htt] at hlive_eq
      have hliveB2 : liveCount B2 s.counter = liveCount X s.counter - 1 := by
        have hl0 : 0 < X.ships.countP (livePred s.counter) := hlivepos
        show B2.ships.countP (livePred s.counter) =
          X.ships.countP (livePred s.counter) - 1
        rw [hships2]
        omega
      refine ⟨?_, ?_, ?_⟩
      · rw [← he]
        show (c.remaining + 255) % 256 = liveCount B2 s.counter
        rw [hliveB2]
        omega
      · rw [← he]
        show c.total = classCount B2 s.counter
        rw [hclassB2]
        exact htot
      · rw [← he]
        show c.total ≤ 255
        exact h255
    · rw [if_neg hk] at hk'
      obtain ⟨hrem', htot', h255'⟩ := hcl k c' hk'
      have hlks : livePred k s = false := by
        show (decide (s.counter = k) && decide (s.length ≠ 0)) = false
        rw [decide_eq_false (fun hh => hk hh.symm)]
        rfl
      rw [hlks] at hlive_eq
      simp only [Bool.false_eq_true, if_false] at hlive_eq
      have hliveB2 : liveCount B2 k = liveCount X k := by
        show B2.ships.countP (livePred k) = X.ships.countP (livePred k)
        rw [hships2]
        omega
      exact ⟨by rw [hliveB2]; exact hrem', by rw [hclassB2]; exact htot', h255'⟩
  · rw [hships2, get?_modifyAt, if_pos rfl, hsx]
    rfl
  · have hmod : (c.remaining + 255) % 256 = c.remaining - 1 := by omega
    rw [hctrs, get?_modifyAt, if_pos rfl, hcg]
    simp only [Option.map_some']
    unfold ShipCounter.decrease
    rw [hmod]
  · intro k hkk
    rw [hctrs, get?_modifyAt, if_neg hkk]

theorem ship_hit_good (X : Board) (i0 : Nat) (s : Ship)
    (hsx : X.ships.get? i0 = some s)
    (hsep : SepInv X) (hscv : ShipsCtrValid X) (hnb : NearbyOk X)
    (hcl : CounterLive X)
    (hlen_i0 : s.length = cellCount X (unexposedShipCell i0) + 1)
    (hlen_j : ∀ j s', X.ships.get? j = some s' → j ≠ i0 →
      s'.length = cellCount X (unexposedShipCell j)) :
    Good (X.ship_hit i0) ∧
    (X.ship_hit i0).ships.get? i0 = some { s with length := s.length - 1 } ∧
    (s.length = 1 →
      ∃ c, X.ship_counters.get? s.counter = some c ∧ 0 < c.remaining ∧
        c.remaining ≤ 255 ∧
        (X.ship_hit i0).ship_counters.get? s.counter =
          some { c with remaining := c.remaining - 1 } ∧
        ∀ k, k ≠ s.counter →
          (X.ship_hit i0).ship_counters.get? k = X.ship_counters.get? k) ∧
    (s.length ≠ 1 → (X.ship_hit i0).ship_counters = X.ship_counters) := by
  have hpos : 0 < s.length := by omega
  by_cases h1 : s.length = 1
  · have hsh : X.ship_hit i0 =
        s.nearby_cells.foldl (fun bb q => bb.expose_cell q)
          ((X.ship_modify i0
              (fun sh => { sh with length := s.length - 1 })).counter_modify
            s.counter ShipCounter.decrease) := by
      rw [ship_hit_of_get? X i0 s hsx, if_neg (by omega), if_pos h1]
      exact register_sink_of_get? _ i0 { s with length := s.length - 1 } (by
        rw [ships_get?_ship_modify, if_pos rfl, hsx]
        rfl)
    obtain ⟨c, hcg⟩ : ∃ c, X.ship_counters.get? s.counter = some c := by
      have hlt := hscv i0 s hsx
      rw [List.get?_eq_get hlt]
      exact ⟨_, rfl⟩
    obtain ⟨hgood, hships, hp1, hp2, hctr, hother⟩ :=
      ship_sink_core X i0 s c (X.ship_hit i0) hsx hsep hscv hnb hcl
        hlen_i0 hlen_j h1 hcg hsh
    exact ⟨hgood, hships, fun _ => ⟨c, hcg, hp1, hp2, hctr, hother⟩,
      fun hne => absurd h1 hne⟩
  · have h2 : 2 ≤ s.length := by omega
    have hsh : X.ship_hit i0 =
        X.ship_modify i0 (fun sh => { sh with length := s.length - 1 }) := by
      rw [ship_hit_of_get? X i0 s hsx, if_neg (by omega), if_neg h1]
    obtain ⟨hgood, hships, hctr⟩ :=
      ship_nosink_core X i0 s (X.ship_hit i0) hsx hsep hscv hnb hcl
        hlen_i0 hlen_j h2 hsh
    exact ⟨hgood, hships, fun hh => absurd hh h1, fun _ => hctr⟩

theorem hit_ship_case (b : Board) (p : Point) (cell : CellState) (i0 : Nat)
    (hg : Good b) (hc : b.get_cell p = some cell) (hexp : cell.exposed = false)
    (hcont : cell.content = CellContent.Ship i0) :
    ∃ s, b.ships.get? i0 = some s ∧ 0 < s.length ∧
      Good ((b.expose_cell p).ship_hit i0) ∧
      ((b.expose_cell p).ship_hit i0).ships.get? i0 =
        some { s with length := s.length - 1 } ∧
      (s.length = 1 →
        ∃ c, b.ship_counters.get? s.counter = some c ∧ 0 < c.remaining ∧
          c.remaining ≤ 255 ∧
          ((b.expose_cell p).ship_hit i0).ship_counters.get? s.counter =
            some { c with remaining := c.remaining - 1 } ∧
          ∀ k, k ≠ s.counter →
            ((b.expose_cell p).ship_hit i0).ship_counters.get? k =
              b.ship_counters.get? k) ∧
      (s.length ≠ 1 →
        ((b.expose_cell p).ship_hit i0).ship_counters = b.ship_counters) := by
  obtain ⟨hsep, hscv, hlc, hnb, hcl⟩ := hg
  have hi0lt : i0 < b.ships.length := hsep.2.1 p i0 ⟨cell, hc, hcont⟩
  obtain ⟨s, hsi0⟩ : ∃ s, b.ships.get? i0 = some s := by
    rw [List.get?_eq_get hi0lt]
    exact ⟨_, rfl⟩
  have hsepX : SepInv (b.expose_cell p) := sep_inv_expose b p hsep
  have hscvX : ShipsCtrValid (b.expose_cell p) := hscv
  have hclX : CounterLive (b.expose_cell p) := hcl
  have hnbX : NearbyOk (b.expose_cell p) := by
    intro i s' hs' q hq
    obtain ⟨c0, hc0, m, hm⟩ := hnb i s' hs' q hq
    rw [get_cell_expose]
    by_cases hqp : q = p
    · rw [if_pos hqp, hc0]
      exact ⟨_, rfl, m, hm⟩
    · rw [if_neg hqp]
      exact ⟨c0, hc0, m, hm⟩
  have hpredtrue : unexposedShipCell i0 cell = true := by
    simp [unexposedShipCell, hcont, hexp]
  have hpredfalse : unexposedShipCell i0 { cell with exposed := true } = false := by
    simp [unexposedShipCell]
  have hm := cellCount_cell_modify b p (fun cc => { cc with exposed := true })
    (unexposedShipCell i0) cell hc
  rw [hpredtrue, hpredfalse] at hm
  simp only [Bool.false_eq_true, if_false, if_pos] at hm
  have hlen := hlc i0 s hsi0
  have hcX : cellCount (b.expose_cell p) (unexposedShipCell i0) =
      cellCount (b.cell_modify p (fun cc => { cc with exposed := true }))
        (unexposedShipCell i0) := rfl
  have hlen_i0 : s.length =
      cellCount (b.expose_cell p) (unexposedShipCell i0) + 1 := by
    rw [hcX]
    omega
  have hlen_j : ∀ j s', (b.expose_cell p).ships.get? j = some s' → j ≠ i0 →
      s'.length = cellCount (b.expose_cell p) (unexposedShipCell j) := by
    intro j s' hs' hj
    have hs'b : b.ships.get? j = some s' := hs'
    have hbef : unexposedShipCell j cell = false := by
      simp [unexposedShipCell, hcont, Ne.symm hj]
    have haft : unexposedShipCell j { cell with exposed := true } = false := by
      simp [unexposedShipCell]
    have hmj := cellCount_cell_modify b p (fun cc => { cc with exposed := true })
      (unexposedShipCell j) cell hc
    rw [hbef, haft] at hmj
    have hcXj : cellCount (b.expose_cell p) (unexposedShipCell j) =
        cellCount (b.cell_modify p (fun cc => { cc with exposed := true }))
          (unexposedShipCell j) := rfl
    rw [hcXj]
    have := hlc j s' hs'b
    omega
  have hsX : (b.expose_cell p).ships.get? i0 = some s := hsi0
  obtain ⟨hgood, hships, hsink, hnos⟩ :=
    ship_hit_good (b.expose_cell p) i0 s hsX hsepX hscvX hnbX hclX
      hlen_i0 hlen_j
  refine ⟨s, hsi0, by omega, hgood, hships, ?_, ?_⟩
  · intro hh
    obtain ⟨c, hcg, hq1, hq2, hctr, hoth⟩ := hsink hh
    exact ⟨c, hcg, hq1, hq2, hctr, hoth⟩
  · intro hne
    exact hnos hne

theorem hit_preserves_good (b : Board) (p : Point)
    (r : Except HitError (Option Nat)) (b' : Board)
    (hg : Good b) (hstep : b.hit p = (r, b')) : Good b' := by
  rcases hit_shape b p with h | h | ⟨cell, hc, hexp, hrest⟩
  · rw [hstep] at h
    injection h with h1 h2
    rw [h2]
    exact hg
  · rw [hstep] at h
    injection h with h1 h2
    rw [h2]
    exact hg
  · rcases hrest with ⟨hgs, heq⟩ | ⟨i0, hgs, heq⟩
    · rw [hstep] at heq
      injection heq with h1 h2
      rw [h2]
      exact good_after_expose b p cell hg hc hgs
    · rw [hstep] at heq
      injection heq with h1 h2
      have hcont := get_ship_some_eq cell.content i0 hgs
      obtain ⟨s, hs1, hs2, hgood, hrest2⟩ :=
        hit_ship_case b p cell i0 hg hc hexp hcont
      rw [h2]
      exact hgood

theorem square_base (n : Nat) (hn : n ≤ 255) :
    GoodB (BoardBuilder.square n).inner ∧
      CounterLive (BoardBuilder.square n).inner := by
  have hships : (BoardBuilder.square n).inner.ships = [] := rfl
  have hctrs : (BoardBuilder.square n).inner.ship_counters = [] := rfl
  constructor
  · refine ⟨reached_sep_inv _ (Reached.init ⟨n, n⟩ hn hn), ?_, ?_, ?_, ?_⟩
    · intro i s hs
      rw [hships] at hs
      cases i <;> exact Option.noConfusion hs
    · intro i s hs
      rw [hships] at hs
      cases i <;> exact Option.noConfusion hs
    · intro i s hs
      rw [hships] at hs
      cases i <;> exact Option.noConfusion hs
    · intro p c hcp
      have hcp' : (BoardBuilder.new ⟨n, n⟩).inner.get_cell p = some c := hcp
      rw [get_cell_new_builder] at hcp'
      by_cases hin : p.x < (⟨n, n⟩ : Point).x ∧ p.y < (⟨n, n⟩ : Point).y
      · rw [if_pos hin] at hcp'
        injection hcp' with he
        rw [← he]
        rfl
      · rw [if_neg hin] at hcp'
        cases hcp'
  · intro k c hk
    rw [hctrs] at hk
    cases k <;> exact Option.noConfusion hk

/-- Boards reachable in play: a successful `BoardBuilder::random` build on an
`n × n` grid followed by any sequence of `Board::hit` calls (each step takes
the returned board, whether the call succeeded or failed). -/
inductive HitReach (n : Nat) (defs : List ShipDefinition)
    (oracle : Nat → Nat → Nat → Bool × Nat × Nat) : Board → Prop
  | built (b : Board)
      (hok : (BoardBuilder.square n).random defs oracle = .ok b) :
      HitReach n defs oracle b
  | hit (b : Board) (p : Point) (r : Except HitError (Option Nat)) (b' : Board)
      (hr : HitReach n defs oracle b) (hstep : b.hit p = (r, b')) :
      HitReach n defs oracle b'

theorem hitreach_good (n : Nat) (defs : List ShipDefinition)
    (oracle : Nat → Nat → Nat → Bool × Nat × Nat) (b : Board)
    (hn : n ≤ 255) (hwf : ∀ d ∈ defs, d.length ≤ 255 ∧ d.count ≤ 255)
    (h : HitReach n defs oracle b) : Good b := by
  induction h with
  | built b0 hok =>
    obtain ⟨hgB, hcl⟩ := square_base n hn
    exact random_build_good oracle defs 0 (BoardBuilder.square n) b0 hwf hgB
      hcl hok
  | hit b0 p r b' hr hstep ih => exact hit_preserves_good b0 p r b' ih hstep

/-- C9: `ShipCounter::decrease` subtracts 1 from the `u8` field `remaining`
with no underflow guard, but for every board built by `BoardBuilder::random`
(with `u8`-sized bounds and class definitions) and every sequence of
`Board::hit` calls, every counter satisfies `remaining ≤ total ≤ 255`, and
whenever a hit triggers the decrement (the struck cell holds the last
unexposed cell of a ship, i.e. its remaining length is 1), the counter's
`remaining` is still positive, so the wrapping subtraction is an exact
decrement by 1 and never underflows. -/
theorem counter_decrease_no_underflow (n : Nat) (defs : List ShipDefinition)
    (oracle : Nat → Nat → Nat → Bool × Nat × Nat) (b : Board)
    (hn : n ≤ 255) (hwf : ∀ d ∈ defs, d.length ≤ 255 ∧ d.count ≤ 255)
    (hreach : HitReach n defs oracle b) :
    (∀ k c, b.ship_counters.get? k = some c →
      c.remaining ≤ c.total ∧ c.total ≤ 255) ∧
    (∀ p cell i0 s, b.get_cell p = some cell → cell.exposed = false →
      cell.content = CellContent.Ship i0 → b.ships.get? i0 = some s →
      s.length = 1 →
      ∃ c, b.ship_counters.get? s.counter = some c ∧ 0 < c.remaining ∧
        (b.hit p).2.ship_counters.get? s.counter =
          some { c with remaining := c.remaining - 1 }) := by
  have hg := hitreach_good n defs oracle b hn hwf hreach
  constructor
  · intro k c hk
    obtain ⟨hrem, htot, h255⟩ := hg.2.2.2.2 k c hk
    refine ⟨?_, h255⟩
    rw [hrem, htot]
    exact countP_le_of_imp _ _ b.ships (by
      intro a _ hp
      simp only [livePred, Bool.and_eq_true, decide_eq_true_eq] at hp
      simp [classPred, hp.1])
  · intro p cell i0 s hc hexp hcont hsi0 h1
    obtain ⟨s', hs', hspos, hgood, hships, hsink, hnos⟩ :=
      hit_ship_case b p cell i0 hg hc hexp hcont
    rw [hsi0] at hs'
    injection hs' with he
    subst he
    obtain ⟨c, hcg, hq1, hq2, hctr, hoth⟩ := hsink h1
    refine ⟨c, hcg, hq1, ?_⟩
    have hgs : cell.content.get_ship = some i0 := by
      rw [hcont]
      rfl
    have hne : ¬ cell.exposed = true := by
      rw [hexp]
      simp
    have hhit : (b.hit p).2 = (b.expose_cell p).ship_hit i0 := by
      unfold Board.hit
      rw [hc]
      dsimp only
      rw [if_neg hne, hgs]
    rw [hhit]
    exact hctr

/-- C9 witness: the underflow-safety theorem applied to the board built on a
2×2 grid with one single-cell ship class and a constant placement oracle. -/
theorem counter_decrease_no_underflow_witness :
    ∃ b : Board,
      (BoardBuilder.square 2).random [⟨"A", 1, 1⟩]
        (fun _ _ _ => (true, 0, 0)) = .ok b ∧
      (∀ k c, b.ship_counters.get? k = some c →
        c.remaining ≤ c.total ∧ c.total ≤ 255) :=
  ⟨_, rfl,
    (counter_decrease_no_underflow 2 [⟨"A", 1, 1⟩]
      (fun _ _ _ => (true, 0, 0)) _ (by decide)
      (by
        intro d hd
        simp only [List.mem_singleton] at hd
        subst hd
        exact ⟨by decide, by decide⟩)
      (HitReach.built _ rfl)).1⟩
